import Mathlib

/-!
A shallow embedding, in exact rational arithmetic, of the learner and committee
classes of `modAL/models/learners.py` (`ActiveLearner`, `BayesianOptimizer`,
`Committee`, `DeepCommittee`, `CommitteeRegressor`), together with proofs of the
behavioural properties claimed for them.

Modelling conventions:
* numpy arrays are lists of rows of rationals; floating point arithmetic is
  idealised as exact rational arithmetic;
* in-place mutation of a Python object becomes explicit state passing: a method
  that mutates `self` and may raise becomes a function returning the post-call
  state together with the raised error, if any (mirroring that a raised Python
  exception leaves whatever mutations already happened in place);
* calls of the wrapped estimator `fit` method are recorded in a `fitLog`, since
  the estimator itself is an external collaborator; bootstrap index sampling by
  `np.random.choice` is abstracted into the recorded bootstrap flag;
* collaborators that live outside the given sources (`sklearn.utils.check_X_y`,
  `modAL.utils.data.data_vstack`, `modAL.utils.data.retrieve_rows`,
  `modAL.utils.validation.check_class_labels`,
  `modAL.utils.validation.check_class_proba`, `BaseLearner._fit_on_new`,
  `BaseCommittee._set_classes`) are modelled from the spec, as marked on each
  such definition.
-/

namespace ModAL

/-- A row of a numpy sample matrix: one feature vector, as exact rationals. -/
abbrev Row := List ℚ

/-- A numpy 2-d array: a list of rows. -/
abbrev Mat := List Row

/-- Rectangularity of a 2-d container: every row has the width of the first row
(a numpy array is rectangular; a ragged nested list is rejected by validation). -/
def rect : Mat → Bool
  | [] => true
  | r :: t => t.all (fun s => s.length == r.length)

/-- Modelled from the spec: the validation collaborator `sklearn.utils.check_X_y`
(consumed, per the external-interface section) applied to a 2-d `X` and a
possibly multi-output 2-d `y`.  It fails fast when the row counts of `X` and `y`
disagree, when there is not at least one sample, or when a container is ragged.
`True` means the call returns normally, `false` that it raises. -/
def check_X_y (X y : Mat) : Bool :=
  X.length == y.length && !(X.length == 0) && rect X && rect y

/-- Modelled from the spec: the validation collaborator `sklearn.utils.check_X_y`
for a 1-d label vector `y` (scalar label per sample): row counts must agree,
at least one sample, `X` rectangular. -/
def check_X_y1 (X : Mat) (y : List ℚ) : Bool :=
  X.length == y.length && !(X.length == 0) && rect X

/-- Modelled from the spec: the array-assembly collaborator
`modAL.utils.data.data_vstack`: row-wise concatenation of two blocks preserving
row order; raises (numpy `ValueError`) when the column shapes of the two blocks
disagree.  Rectangular inputs are assumed (they went through validation). -/
def data_vstack (A B : Mat) : Except String Mat :=
  match A, B with
  | [], _ => .ok B
  | _, [] => .ok A
  | a :: _, b :: _ =>
    if a.length == b.length then .ok (A ++ B)
    else .error "all the input array dimensions must match exactly"

/-- Modelled from the spec: the array-assembly collaborator
`modAL.utils.data.retrieve_rows` restricted to a single integer index: row
retrieval by index. -/
def retrieve_rows (X : Mat) (i : ℕ) : Row := X.getD i []

/-- One recorded call of the wrapped estimator fit method for a batch learner:
the sample matrix and (2-d) label matrix handed over, and whether bootstrap
resampling of its rows was requested (the bootstrap indices themselves are
drawn by `np.random.choice` and abstracted away). -/
structure FitCall where
  X : Mat
  y : Mat
  bootstrap : Bool
deriving DecidableEq, Repr

/-- The mutable state of an `ActiveLearner`: the accumulated training buffers
`X_training` and `y_training` (`None` until first data arrives) and the log of
estimator fit calls made so far. -/
structure ALState where
  X_training : Option Mat
  y_training : Option Mat
  fitLog : List FitCall
deriving DecidableEq, Repr

namespace ActiveLearner

/-- The method `ActiveLearner._add_training_data` (learners.py lines 93-117).
Validates `(X, y)` with `check_X_y`; on the first data simply stores the pair;
otherwise stacks the X buffer first and the y buffer second, exactly in the
order of the source, so that a failure while stacking `y` leaves the already
stacked X buffer in place.  Returns the post-call state and the raised error,
if any. -/
def _add_training_data (s : ALState) (X y : Mat) : ALState × Option String :=
  if !check_X_y X y then
    (s, some "check_X_y: inconsistent numbers of samples")
  else
    match s.X_training with
    | none => ({ s with X_training := some X, y_training := some y }, none)
    | some Xt =>
      match data_vstack Xt X with
      | .error _ =>
        (s, some "the dimensions of the new training data and label must agree with the training data and labels provided so far")
      | .ok XtX =>
        match s.y_training with
        | none =>
          ({ s with X_training := some XtX }, some "unsupported operand: the y buffer is missing")
        | some yt =>
          match data_vstack yt y with
          | .error _ =>
            ({ s with X_training := some XtX },
             some "the dimensions of the new training data and label must agree with the training data and labels provided so far")
          | .ok yty =>
            ({ s with X_training := some XtX, y_training := some yty }, none)

/-- The method `ActiveLearner._fit_to_known` (learners.py lines 119-137): fit
the estimator on the whole accumulated buffer (bootstrapped when requested). -/
def _fit_to_known (s : ALState) (bootstrap : Bool) : ALState :=
  { s with fitLog := s.fitLog ++ [⟨s.X_training.getD [], s.y_training.getD [], bootstrap⟩] }

/-- Modelled from the spec: `BaseLearner._fit_on_new` (defined in
`models/base.py`, which is not among the given sources): a model-specific fit
restricted to only the new batch, bypassing the accumulated buffer. -/
def _fit_on_new (s : ALState) (X y : Mat) (bootstrap : Bool) : ALState :=
  { s with fitLog := s.fitLog ++ [⟨X, y, bootstrap⟩] }

/-- The method `ActiveLearner.fit` (learners.py lines 139-161): validates with
`check_X_y`, then replaces both accumulated buffers with `(X, y)` and refits on
them. -/
def fit (s : ALState) (X y : Mat) (bootstrap : Bool) : ALState × Option String :=
  if !check_X_y X y then
    (s, some "check_X_y: inconsistent numbers of samples")
  else
    (_fit_to_known { s with X_training := some X, y_training := some y } bootstrap, none)

/-- The method `ActiveLearner.teach` (learners.py lines 177-197): when
`only_new` is false, `_add_training_data` then `_fit_to_known`; when `only_new`
is true, `check_X_y` then `_fit_on_new`, the buffers untouched. -/
def teach (s : ALState) (X y : Mat) (bootstrap only_new : Bool) : ALState × Option String :=
  if !only_new then
    match _add_training_data s X y with
    | (s', some e) => (s', some e)
    | (s', none) => (_fit_to_known s' bootstrap, none)
  else
    if !check_X_y X y then
      (s, some "check_X_y: inconsistent numbers of samples")
    else
      (_fit_on_new s X y bootstrap, none)

end ActiveLearner

/-- The maximum entry of a rational vector (`0` on the empty vector, where numpy
raises; every use below guards nonemptiness). -/
def listMax : List ℚ → ℚ
  | [] => 0
  | x :: t => t.foldl max x

/-- The semantics of `np.argmax` on a 1-d vector: the index of the first
occurrence of the maximum value (numpy documents first-occurrence tie
breaking).  On the empty vector numpy raises; we return `0` there and every use
below guards nonemptiness. -/
def npArgmax : List ℚ → ℕ
  | [] => 0
  | [_] => 0
  | a :: t => if listMax t ≤ a then 0 else npArgmax t + 1

/-- One recorded call of the wrapped estimator fit method for the Bayesian
optimizer, whose labels are a 1-d vector of scalar objective values. -/
structure BOFitCall where
  X : Mat
  y : List ℚ
  bootstrap : Bool
deriving DecidableEq, Repr

/-- The mutable state of a `BayesianOptimizer`: the accumulated buffers (labels
are a 1-d vector of scalar objective values), the estimator fit log, and the
running maximum `X_max`/`y_max`.  `y_max = none` models the initial
`-np.inf` (minus infinity: strictly below every finite value), with `X_max =
none` the unknown location. -/
structure BOState where
  X_training : Option Mat
  y_training : Option (List ℚ)
  fitLog : List BOFitCall
  X_max : Option Row
  y_max : Option ℚ
deriving DecidableEq, Repr

namespace BayesianOptimizer

/-- The method `ActiveLearner._add_training_data` as inherited by
`BayesianOptimizer` (labels 1-d): validation by `check_X_y`, then stacking.
Concatenation of two 1-d label vectors cannot fail, so the only stacking
failure is a column mismatch on the X buffer. -/
def _add_training_data (s : BOState) (X : Mat) (y : List ℚ) : BOState × Option String :=
  if !check_X_y1 X y then
    (s, some "check_X_y: inconsistent numbers of samples")
  else
    match s.X_training with
    | none => ({ s with X_training := some X, y_training := some y }, none)
    | some Xt =>
      match data_vstack Xt X with
      | .error _ =>
        (s, some "the dimensions of the new training data and label must agree with the training data and labels provided so far")
      | .ok XtX =>
        ({ s with X_training := some XtX, y_training := some (s.y_training.getD [] ++ y) }, none)

/-- `_fit_to_known` as inherited by `BayesianOptimizer` (labels 1-d). -/
def _fit_to_known (s : BOState) (bootstrap : Bool) : BOState :=
  { s with fitLog := s.fitLog ++ [⟨s.X_training.getD [], s.y_training.getD [], bootstrap⟩] }

/-- Modelled from the spec: `BaseLearner._fit_on_new` as inherited by
`BayesianOptimizer` (labels 1-d): fit restricted to only the new batch. -/
def _fit_on_new (s : BOState) (X : Mat) (y : List ℚ) (bootstrap : Bool) : BOState :=
  { s with fitLog := s.fitLog ++ [⟨X, y, bootstrap⟩] }

/-- The method `BayesianOptimizer._set_max` (learners.py lines 382-387):
`max_idx = np.argmax(y)`; the running maximum is replaced by
`(retrieve_rows(X, max_idx), y[max_idx])` only when the latter value is
strictly greater than the current `y_max` (and `-np.inf`, modelled by `none`,
is strictly below every value). -/
def _set_max (s : BOState) (X : Mat) (y : List ℚ) : BOState :=
  let max_idx := npArgmax y
  let y_new := y.getD max_idx 0
  match s.y_max with
  | none => { s with y_max := some y_new, X_max := some (retrieve_rows X max_idx) }
  | some cur =>
    if cur < y_new then { s with y_max := some y_new, X_max := some (retrieve_rows X max_idx) }
    else s

/-- The method `BayesianOptimizer.get_max` (learners.py lines 389-396). -/
def get_max (s : BOState) : Option Row × Option ℚ := (s.X_max, s.y_max)

/-- The constructor `BayesianOptimizer.__init__` (learners.py lines 363-380),
restricted to the state it builds: the buffers are stored (the inherited
`ActiveLearner` constructor fits the estimator when initial data is given),
then the running maximum is seeded from the row of maximum label when initial
labels are given, else set to unknown location and minus infinity. -/
def init (init_data : Option (Mat × List ℚ)) (bootstrap_init : Bool) : BOState :=
  match init_data with
  | none => ⟨none, none, [], none, none⟩
  | some (X0, y0) =>
    let max_idx := npArgmax y0
    ⟨some X0, some y0, [⟨X0, y0, bootstrap_init⟩],
     some (retrieve_rows X0 max_idx), some (y0.getD max_idx 0)⟩

/-- The method `BayesianOptimizer.teach` (learners.py lines 398-420):
`_add_training_data` unconditionally (buffer growth regardless of `only_new`),
then the requested fit policy, then `_set_max` on the new batch only.  A raised
validation error propagates before any fit or maximum update. -/
def teach (s : BOState) (X : Mat) (y : List ℚ) (bootstrap only_new : Bool) :
    BOState × Option String :=
  match _add_training_data s X y with
  | (s', some e) => (s', some e)
  | (s', none) =>
    let s'' := if !only_new then _fit_to_known s' bootstrap else _fit_on_new s' X y bootstrap
    (_set_max s'' X y, none)

end BayesianOptimizer

/-- One teach call handed to a Bayesian optimizer: a batch of rows, their
scalar objective values, and the two flags. -/
structure TeachCall where
  X : Mat
  y : List ℚ
  bootstrap : Bool
  only_new : Bool
deriving DecidableEq, Repr

/-- A sequence of teach calls applied in order (errors cannot occur under the
validity hypotheses of the theorems that use this). -/
def teachAll (s : BOState) (calls : List TeachCall) : BOState :=
  calls.foldl (fun st c => (BayesianOptimizer.teach st c.X c.y c.bootstrap c.only_new).1) s

/-- The observed (row, value) pairs of a sequence of teach calls, in
presentation order. -/
def obsPairs (calls : List TeachCall) : List (Row × ℚ) :=
  calls.foldr (fun c acc => c.X.zip c.y ++ acc) []

/-- Specification-side running maximum over (row, value) pairs: the accumulator
is replaced only when a strictly greater value arrives, so the fold keeps the
first pair attaining the overall maximum. -/
def stepMax (acc : Option (Row × ℚ)) (p : Row × ℚ) : Option (Row × ℚ) :=
  match acc with
  | none => some p
  | some q => if q.2 < p.2 then some p else some q

/-- The running maximum of a whole pair list, starting from minus infinity. -/
def runMax (ps : List (Row × ℚ)) : Option (Row × ℚ) :=
  ps.foldl stepMax none

/-- The update of the running maximum performed by one `_set_max` call, as a
pure function of the previous `(X_max, y_max)` pair and the new batch only:
used to state that the maximum update never re-scans the accumulated history. -/
def maxUpdate (acc : Option Row × Option ℚ) (X : Mat) (y : List ℚ) :
    Option Row × Option ℚ :=
  let max_idx := npArgmax y
  let y_new := y.getD max_idx 0
  match acc.2 with
  | none => (some (retrieve_rows X max_idx), some y_new)
  | some cur =>
    if cur < y_new then (some (retrieve_rows X max_idx), some y_new) else acc

/-- Specification-side merge of two running maxima, left biased: the right
argument wins only when strictly greater. -/
def mergeMax : Option (Row × ℚ) → Option (Row × ℚ) → Option (Row × ℚ)
  | a, none => a
  | none, some b => some b
  | some a, some b => if a.2 < b.2 then some b else some a

/-- Validity of one teach call for a Bayesian optimizer whose samples have
column width `w`: row counts of `X` and `y` agree, at least one sample, every
row `w` wide (so validation passes and stacking cannot fail). -/
abbrev ValidCall (w : ℕ) (c : TeachCall) : Prop :=
  c.X.length = c.y.length ∧ c.X ≠ [] ∧ ∀ r ∈ c.X, r.length = w

/-- The (row, value) pairs of the optional initial data of a Bayesian
optimizer. -/
def initPairs : Option (Mat × List ℚ) → List (Row × ℚ)
  | none => []
  | some (X0, y0) => X0.zip y0

/-- A member of a classification Committee as seen by the prediction methods:
its wrapped estimator classes_ attribute and the output of its predict_proba
on the sample matrix under consideration (one probability row per sample,
expressed in the member's own class order; the estimator is an external
collaborator, so this output is the interface surface). -/
structure CMember where
  classes : List ℤ
  proba : List (List ℚ)
deriving DecidableEq, Repr, Inhabited

/-- A classification Committee as seen by the prediction methods: the ordered
member list and the unified classes_ vector. -/
structure Committee where
  learner_list : List CMember
  classes_ : List ℤ
deriving DecidableEq, Repr, Inhabited

/-- Modelled from the spec: `modAL.utils.validation.check_class_labels` (not
among the given sources): true iff every member estimator carries the same
classes_ vector as the first one (`np.array_equal`, order sensitive). -/
def check_class_labels (ms : List CMember) : Bool :=
  match ms with
  | [] => true
  | m0 :: _ => ms.all (fun m => m.classes == m0.classes)

/-- Modelled from the spec: `modAL.utils.validation.check_class_proba` (not
among the given sources): each probability row is scattered into the full
class space; a class unknown to the member receives probability 0, a
recognized class keeps the predicted probability it had at its position in the
member's own classes vector, placed at the rank of that class within the
unified label vector. -/
def check_class_proba (proba : List (List ℚ)) (known_labels all_labels : List ℤ) :
    List (List ℚ) :=
  proba.map (fun p => all_labels.map (fun c =>
    match known_labels.findIdx? (fun k => k == c) with
    | some i => p.getD i 0
    | none => 0))

namespace Committee

/-- The method `Committee.vote_proba` (learners.py lines 629-662), indexed as
result[sample][member][class]: a zero tensor of shape
(n_samples, n_learners, n_classes_) is preallocated and each member's
probabilities are assigned into its slice, directly when all members share the
same classes vector, through `check_class_proba` otherwise.  Under the shape
hypotheses carried by the theorems every zero cell is overwritten by the
assignment, as in the source. -/
def vote_proba (c : Committee) (n_samples : ℕ) : List (List (List ℚ)) :=
  if check_class_labels c.learner_list then
    (List.range n_samples).map (fun s => c.learner_list.map (fun m => m.proba.getD s []))
  else
    (List.range n_samples).map (fun s =>
      c.learner_list.map (fun m => (check_class_proba m.proba m.classes c.classes_).getD s []))

/-- The method `Committee.predict_proba` (learners.py lines 580-591):
`np.mean(vote_proba(X), axis=1)`, the arithmetic mean across the learner
axis. -/
def predict_proba (c : Committee) (n_samples : ℕ) : List (List ℚ) :=
  (vote_proba c n_samples).map (fun slice =>
    (List.range c.classes_.length).map (fun j =>
      (slice.map (fun r => r.getD j 0)).sum / (slice.length : ℚ)))

/-- The method `Committee.predict` (learners.py lines 562-578): per-sample
`np.argmax` of the consensus probabilities, translated through classes_. -/
def predict (c : Committee) (n_samples : ℕ) : List ℤ :=
  (predict_proba c n_samples).map (fun row => c.classes_.getD (npArgmax row) 0)

end Committee

/-- Sorted unique values of a list of integer class labels: the semantics of
`np.unique` on a 1-d label array (ascending sort, duplicates removed). -/
def npUnique (l : List ℤ) : List ℤ :=
  (l.insertionSort (· ≤ ·)).dedup

/-- The validation collaborator `check_X_y` for integer class labels (1-d y),
modelled from the spec as for `check_X_y1`. -/
def check_X_yz (X : Mat) (y : List ℤ) : Bool :=
  X.length == y.length && !(X.length == 0) && rect X

/-- A member of a Committee as seen by the training methods: an ActiveLearner
with its accumulated buffers (integer class labels) and the classes_ attribute
of its wrapped estimator. -/
structure CLearner where
  X_training : Option Mat
  y_training : Option (List ℤ)
  classes : List ℤ
deriving DecidableEq, Repr, Inhabited

namespace CLearner

/-- `ActiveLearner._add_training_data` for a Committee member (class labels
1-d, so only the X buffer stacking can fail after validation). -/
def _add_training_data (m : CLearner) (X : Mat) (y : List ℤ) : Except String CLearner :=
  if !check_X_yz X y then
    .error "check_X_y: inconsistent numbers of samples"
  else
    match m.X_training with
    | none => .ok { m with X_training := some X, y_training := some y }
    | some Xt =>
      match data_vstack Xt X with
      | .error _ =>
        .error "the dimensions of the new training data and label must agree with the training data and labels provided so far"
      | .ok XtX =>
        .ok { m with X_training := some XtX, y_training := some (m.y_training.getD [] ++ y) }

/-- `ActiveLearner._fit_to_known` for a Committee member.  Modelled from the
spec for the estimator part: fitting a classification TrainableModel populates
its classes_ attribute with the sorted unique labels of the data it was fit
on. -/
def _fit_to_known (m : CLearner) : CLearner :=
  { m with classes := npUnique (m.y_training.getD []) }

/-- `ActiveLearner.fit` for a Committee member: validate, replace both buffers,
refit (the estimator part modelled from the spec as in `_fit_to_known`). -/
def fit (_m : CLearner) (X : Mat) (y : List ℤ) : Except String CLearner :=
  if !check_X_yz X y then
    .error "check_X_y: inconsistent numbers of samples"
  else
    .ok { X_training := some X, y_training := some y, classes := npUnique y }

end CLearner

/-- A classification Committee as seen by the training methods: the ordered
member list and the unified classes_ vector. -/
structure CommitteeState where
  learner_list : List CLearner
  classes_ : List ℤ
deriving DecidableEq, Repr, Inhabited

/-- Modelled from the spec: `BaseCommittee._set_classes` (defined in
`models/base.py`, not among the given sources): the unified classes_ becomes
the sorted union of every member's known class labels. -/
def _set_classes (ms : List CLearner) : List ℤ :=
  npUnique (ms.foldr (fun m acc => m.classes ++ acc) [])

namespace Committee

/-- The constructor `Committee.__init__` (learners.py lines 479-485): store the
ordered member list and immediately compute classes_ with `_set_classes`. -/
def construct (ms : List CLearner) : CommitteeState :=
  ⟨ms, _set_classes ms⟩

/-- The method `Committee.fit` (learners.py lines 513-529): fit every member on
the identical (X, y), then recompute classes_. -/
def fit (c : CommitteeState) (X : Mat) (y : List ℤ) : Except String CommitteeState := do
  let ms ← c.learner_list.mapM (fun m => CLearner.fit m X y)
  pure ⟨ms, _set_classes ms⟩

/-- The method `Committee.teach` (learners.py lines 544-560) with
`only_new = false` and `bootstrap = false`: append (X, y) to every member's
buffer, refit every member on its full buffer, then recompute classes_. -/
def teach (c : CommitteeState) (X : Mat) (y : List ℤ) : Except String CommitteeState := do
  let ms1 ← c.learner_list.mapM (fun m => CLearner._add_training_data m X y)
  let ms2 := ms1.map CLearner._fit_to_known
  pure ⟨ms2, _set_classes ms2⟩

end Committee

/-- A predicted class label as a Python value: numeric (int, float, bool all
coerce to float) or a string label, which does not. -/
inductive PyLabel where
  | num (q : ℚ)
  | str (s : String)
deriving DecidableEq, Repr

/-- Coercion of one predicted class label into a cell of the preallocated
float64 vote matrix: numeric labels coerce to their float value, a string
label raises (numpy: could not convert string to float). -/
def floatOfLabel : PyLabel → Option ℚ
  | .num q => some q
  | .str _ => none

/-- A member of a (deep) Committee as seen by `vote`: the output of its predict
method on the sample matrix under consideration, one label per sample. -/
structure VoteMember where
  preds : List PyLabel
deriving DecidableEq, Repr, Inhabited

/-- The assignment `prediction[:, learner_idx] = learner.predict(X)` of one
member's predictions into its column of the preallocated float zero matrix:
raises when the lengths do not broadcast or when a label cannot be coerced to
float. -/
def predColumn (n_samples : ℕ) (m : VoteMember) : Except String (List ℚ) :=
  if m.preds.length != n_samples then
    .error "could not broadcast input array"
  else
    match m.preds.mapM floatOfLabel with
    | some col => .ok col
    | none => .error "could not convert string to float"

namespace Committee

/-- The method `Committee.vote` (learners.py lines 611-627): preallocate
`np.zeros((n_samples, n_learners))` (float64) and assign each member's predict
output into its column in member order; the result is indexed
result[sample][member].  The first failing assignment raises. -/
def vote (n_samples : ℕ) (ms : List VoteMember) : Except String (List (List ℚ)) :=
  match ms.mapM (predColumn n_samples) with
  | .error e => .error e
  | .ok cols => .ok ((List.range n_samples).map (fun s => cols.map (fun col => col.getD s 0)))

end Committee

namespace DeepCommittee

/-- The method `DeepCommittee.vote` (learners.py lines 804-820), textually
identical to `Committee.vote`: preallocate a float zero matrix and assign each
member's predict output into its column. -/
def vote (n_samples : ℕ) (ms : List VoteMember) : Except String (List (List ℚ)) :=
  match ms.mapM (predColumn n_samples) with
  | .error e => .error e
  | .ok cols => .ok ((List.range n_samples).map (fun s => cols.map (fun col => col.getD s 0)))

end DeepCommittee

/-- The arithmetic mean of a rational vector (`np.mean`; the empty vector,
where numpy emits nan, is guarded against by the theorems). -/
def npMean (l : List ℚ) : ℚ := l.sum / (l.length : ℚ)

/-- The square of `np.std` of a rational vector: the population variance, the
mean of the squared deviations with divisor N (numpy default ddof = 0), exact
over ℚ.  The standard deviation itself is the real square root of this value,
which is irrational in general; theorems reference it as `Real.sqrt` of this
component. -/
def npStdSq (l : List ℚ) : ℚ :=
  (l.map (fun x => (x - npMean l) ^ 2)).sum / (l.length : ℚ)

/-- A member of a CommitteeRegressor as seen by its prediction methods: the
(flattened) output of its predict method on the sample matrix under
consideration, one value per sample. -/
structure RMember where
  pred : List ℚ
deriving DecidableEq, Repr, Inhabited

namespace CommitteeRegressor

/-- The method `CommitteeRegressor.vote` (learners.py lines 931-947):
preallocate a zero matrix of shape (n_samples, n_learners) and assign each
member's flattened predictions into its column; result[sample][member]. -/
def vote (ms : List RMember) (n_samples : ℕ) : List (List ℚ) :=
  (List.range n_samples).map (fun s => ms.map (fun m => m.pred.getD s 0))

/-- The method `CommitteeRegressor.predict` (learners.py lines 914-929) with
`return_std = false`: `np.mean(vote, axis=1)`. -/
def predict (ms : List RMember) (n_samples : ℕ) : List ℚ :=
  (vote ms n_samples).map npMean

/-- The method `CommitteeRegressor.predict` (learners.py lines 914-929) with
`return_std = true`: the pair `(np.mean(vote, axis=1), np.std(vote, axis=1))`,
the second component carried as the square of the standard deviation (see
`npStdSq`). -/
def predict_return_std (ms : List RMember) (n_samples : ℕ) : List ℚ × List ℚ :=
  ((vote ms n_samples).map npMean, (vote ms n_samples).map npStdSq)

end CommitteeRegressor

/-- A concrete learner state used by the claim C1 instances: the X buffer holds
one 1-wide row, the (multi-output) y buffer one 2-wide row. -/
def C1_state : ALState := ⟨some [[1]], some [[1, 2]], []⟩

/-- The concrete teach sequence of the claim C2 example: single-row teach calls
carrying the objective values 3, 1, 5, 2 in that order. -/
def C2_calls : List TeachCall :=
  [⟨[[10]], [3], false, false⟩, ⟨[[11]], [1], false, false⟩,
   ⟨[[12]], [5], false, false⟩, ⟨[[13]], [2], false, false⟩]

/-- A concrete Bayesian optimizer state used by the claim C6 instances: one
accumulated row with objective value 4, which is also the running maximum. -/
def C6_state : BOState := ⟨some [[1]], some [4], [], some [1], some 4⟩

/-- The specification predicate for the unified class vector of a Committee:
ascending sorted, no duplicates, and containing exactly the union of the
member estimators' class labels. -/
def IsSortedUnion (cls : List ℤ) (ms : List CLearner) : Prop :=
  cls.Sorted (· ≤ ·) ∧ cls.Nodup ∧ ∀ z : ℤ, z ∈ cls ↔ ∃ m ∈ ms, z ∈ m.classes

/-- A concrete two-member classification committee used by the claim C3 and C5
instances: member A knows classes {0, 1} with probabilities [0.3, 0.7] on the
single sample, member B knows {0, 1, 2} with probabilities [0.2, 0.4, 0.4];
the unified class vector is [0, 1, 2]. -/
def commAB : Committee :=
  ⟨[⟨[0, 1], [[3/10, 7/10]]⟩, ⟨[0, 1, 2], [[1/5, 2/5, 2/5]]⟩], [0, 1, 2]⟩

/-- Concrete members used by the claim C4 instances: estimators knowing
classes {0, 1} and {1, 2}. -/
def C4_members : List CLearner :=
  [⟨none, none, [0, 1]⟩, ⟨none, none, [1, 2]⟩]

/-- The committee state after teaching `(X = [[5]], y = [2])` to the committee
built from `C4_members`: every member buffer holds the batch, every estimator
was refit on it and knows exactly class 2. -/
def C4_teached : CommitteeState :=
  ⟨[⟨some [[5]], some [2], [2]⟩, ⟨some [[5]], some [2], [2]⟩], [2]⟩

/-- Concrete regressor members used by the claim C9 instances: both predict 2
on sample 0; they predict 5 and 7 on sample 1. -/
def C9_members : List RMember :=
  [⟨[2, 5]⟩, ⟨[2, 7]⟩]

/-- Concrete all-numeric vote members used by the claim C10 instances. -/
def C10_members : List VoteMember :=
  [⟨[.num 2, .num 0]⟩, ⟨[.num 1, .num 3]⟩]

/-- Concrete vote members with one string label used by the claim C10
instances. -/
def C10_bad : List VoteMember :=
  [⟨[.num 2, .num 0]⟩, ⟨[.num 1, .str "a"]⟩]

deriving instance DecidableEq for Except

/-!  Theorems.  Helper lemmas come first, then one theorem per claim (with its
counterexample and witness where required). -/

/-- A successful `data_vstack` is exactly row-wise concatenation preserving
order. -/
theorem data_vstack_ok {A B C : Mat} (h : data_vstack A B = .ok C) : C = A ++ B := by
  cases A with
  | nil => simp [data_vstack] at h; simp [h]
  | cons a t =>
    cases B with
    | nil => simp [data_vstack] at h; simp [h]
    | cons b u =>
      simp only [data_vstack] at h
      split at h
      · injection h with h
        exact h.symm
      · cases h

/-- Folding max from a merged seed splits into an outer max. -/
theorem foldl_max_shift (t : List ℚ) : ∀ a b : ℚ, t.foldl max (max a b) = max a (t.foldl max b) := by
  induction t with
  | nil => intro a b; rfl
  | cons c u ih =>
    intro a b
    simp only [List.foldl_cons]
    rw [max_assoc, ih]

/-- The maximum of a nonempty cons splits off the head. -/
theorem listMax_cons {t : List ℚ} (a : ℚ) (h : t ≠ []) :
    listMax (a :: t) = max a (listMax t) := by
  cases t with
  | nil => cases h rfl
  | cons c u =>
    show (c :: u).foldl max a = max a (u.foldl max c)
    simp only [List.foldl_cons]
    exact foldl_max_shift u a c

/-- Every entry is at most the maximum. -/
theorem le_listMax : ∀ {l : List ℚ} {x : ℚ}, x ∈ l → x ≤ listMax l := by
  intro l
  induction l with
  | nil => intro x h; cases h
  | cons a t ih =>
    intro x h
    rcases List.mem_cons.mp h with rfl | hx
    · cases t with
      | nil => simp [listMax]
      | cons c u =>
        rw [listMax_cons x (by simp)]
        exact le_max_left _ _
    · have ht : t ≠ [] := by rintro rfl; cases hx
      rw [listMax_cons a ht]
      exact le_trans (ih hx) (le_max_right _ _)

/-- The maximum of a nonempty vector is attained. -/
theorem listMax_mem : ∀ {l : List ℚ}, l ≠ [] → listMax l ∈ l := by
  intro l
  induction l with
  | nil => intro h; cases h rfl
  | cons a t ih =>
    intro _
    cases t with
    | nil => simp [listMax]
    | cons c u =>
      rw [listMax_cons a (by simp)]
      rcases le_total (listMax (c :: u)) a with hle | hle
      · rw [max_eq_left hle]
        exact List.mem_cons_self a _
      · rw [max_eq_right hle]
        exact List.mem_cons_of_mem a (ih (by simp))

/-- The semantics of `npArgmax` on a nonempty vector: an in-range index whose
entry is the maximum value, with every strictly earlier entry strictly below
it (first-occurrence tie breaking). -/
theorem npArgmax_spec : ∀ {l : List ℚ}, l ≠ [] →
    npArgmax l < l.length ∧ l.getD (npArgmax l) 0 = listMax l ∧
      ∀ j, j < npArgmax l → l.getD j 0 < listMax l := by
  intro l
  induction l with
  | nil => intro h; cases h rfl
  | cons a t ih =>
    intro _
    cases t with
    | nil =>
      refine ⟨by simp [npArgmax], by simp [npArgmax, listMax], ?_⟩
      intro j hj
      simp [npArgmax] at hj
    | cons c u =>
      have ht : (c :: u) ≠ [] := by simp
      have hmax := listMax_cons a ht
      by_cases hle : listMax (c :: u) ≤ a
      · have h0 : npArgmax (a :: c :: u) = 0 := by simp [npArgmax, hle]
        refine ⟨by simp [h0], ?_, ?_⟩
        · rw [h0, hmax, max_eq_left hle]
          rfl
        · intro j hj
          rw [h0] at hj
          omega
      · have h1 : npArgmax (a :: c :: u) = npArgmax (c :: u) + 1 := by
          simp [npArgmax, hle]
        obtain ⟨ih1, ih2, ih3⟩ := ih ht
        push_neg at hle
        refine ⟨?_, ?_, ?_⟩
        · rw [h1]
          simpa using Nat.succ_lt_succ ih1
        · rw [h1]
          show (c :: u).getD (npArgmax (c :: u)) 0 = _
          rw [ih2, hmax, max_eq_right (le_of_lt hle)]
        · intro j hj
          rw [h1] at hj
          cases j with
          | zero =>
            show a < listMax (a :: c :: u)
            rw [hmax, max_eq_right (le_of_lt hle)]
            exact hle
          | succ j' =>
            have hj' : j' < npArgmax (c :: u) := by omega
            show (c :: u).getD j' 0 < _
            rw [hmax, max_eq_right (le_of_lt hle)]
            exact ih3 j' hj'

/-- One step of the running maximum is a merge with a singleton. -/
theorem stepMax_eq_merge (acc : Option (Row × ℚ)) (p : Row × ℚ) :
    stepMax acc p = mergeMax acc (some p) := by
  cases acc <;> rfl

/-- The left-biased merge of running maxima is associative. -/
theorem mergeMax_assoc (a b c : Option (Row × ℚ)) :
    mergeMax (mergeMax a b) c = mergeMax a (mergeMax b c) := by
  rcases a with _ | a <;> rcases b with _ | b <;> rcases c with _ | c <;>
    simp only [mergeMax] <;>
    split_ifs <;>
    simp only [mergeMax] <;>
    split_ifs <;>
    first
    | rfl
    | (exfalso; linarith)

/-- Folding the running maximum from a seed factors through the seed. -/
theorem foldl_stepMax_merge : ∀ (ps : List (Row × ℚ)) (acc : Option (Row × ℚ)),
    ps.foldl stepMax acc = mergeMax acc (runMax ps) := by
  intro ps
  induction ps with
  | nil => intro acc; cases acc <;> rfl
  | cons p ps ih =>
    intro acc
    show ps.foldl stepMax (stepMax acc p) = mergeMax acc (runMax (p :: ps))
    have hcons : runMax (p :: ps) = mergeMax (some p) (runMax ps) := by
      show ps.foldl stepMax (stepMax none p) = _
      rw [ih, stepMax_eq_merge]
      rfl
    rw [ih, stepMax_eq_merge, hcons, mergeMax_assoc]

/-- The running maximum of a nonempty pair list is its first pair of maximal
value: an in-range index whose value is the maximum of all values, every
earlier value strictly below it. -/
theorem runMax_spec : ∀ {ps : List (Row × ℚ)}, ps ≠ [] →
    ∃ i, i < ps.length ∧ runMax ps = some (ps.getD i ([], 0)) ∧
      (ps.getD i ([], 0)).2 = listMax (ps.map Prod.snd) ∧
      ∀ j, j < i → (ps.getD j ([], 0)).2 < (ps.getD i ([], 0)).2 := by
  intro ps
  induction ps with
  | nil => intro h; cases h rfl
  | cons p ps ih =>
    intro _
    have hcons : runMax (p :: ps) = mergeMax (some p) (runMax ps) := by
      show ps.foldl stepMax (stepMax none p) = _
      rw [foldl_stepMax_merge, stepMax_eq_merge]
      rfl
    by_cases hps : ps = []
    · subst hps
      exact ⟨0, by simp, by simp [runMax, stepMax], by simp [listMax], fun j hj => by omega⟩
    · obtain ⟨i, hi, hrun, hval, hfirst⟩ := ih hps
      have hmapne : ps.map Prod.snd ≠ [] := by
        simpa using hps
      have hmapcons : listMax ((p :: ps).map Prod.snd) = max p.2 (listMax (ps.map Prod.snd)) := by
        simpa using listMax_cons p.2 hmapne
      by_cases hlt : p.2 < (ps.getD i ([], 0)).2
      · refine ⟨i + 1, by simpa using Nat.succ_lt_succ hi, ?_, ?_, ?_⟩
        · rw [hcons, hrun]
          show (if p.2 < (ps.getD i ([], 0)).2 then _ else _) = _
          rw [if_pos hlt]
          rfl
        · show (ps.getD i ([], 0)).2 = listMax ((p :: ps).map Prod.snd)
          rw [hmapcons, hval]
          exact (max_eq_right (le_of_lt (lt_of_lt_of_eq hlt hval))).symm
        · intro j hj
          cases j with
          | zero => exact hlt
          | succ j' =>
            exact hfirst j' (by omega)
      · refine ⟨0, by simp, ?_, ?_, fun j hj => by omega⟩
        · rw [hcons, hrun]
          show (if p.2 < (ps.getD i ([], 0)).2 then _ else _) = _
          rw [if_neg hlt]
          rfl
        · show p.2 = listMax ((p :: ps).map Prod.snd)
          rw [hmapcons]
          have hle2 : listMax (ps.map Prod.snd) ≤ p.2 := by
            rw [← hval]
            exact not_lt.mp hlt
          rw [max_eq_left hle2]

/-- Folding the running maximum over a zipped batch equals the single
argmax-based comparison that `_set_max` performs: on a valid batch, the batch
contributes exactly its first maximal (row, value) pair, compared once against
the accumulator. -/
theorem zip_foldl_argmax : ∀ (y : List ℚ) (X : Mat) (acc : Option (Row × ℚ)),
    X.length = y.length → y ≠ [] →
    (X.zip y).foldl stepMax acc =
      stepMax acc (retrieve_rows X (npArgmax y), y.getD (npArgmax y) 0) := by
  intro y
  induction y with
  | nil => intro X acc _ hne; cases hne rfl
  | cons v t ih =>
    intro X acc hlen _
    cases X with
    | nil => simp at hlen
    | cons x X' =>
      cases t with
      | nil =>
        cases X' with
        | nil => rfl
        | cons _ _ => simp at hlen
      | cons c u =>
        have hlen' : X'.length = (c :: u).length := by simpa using hlen
        have hne' : (c :: u) ≠ [] := by simp
        show (X'.zip (c :: u)).foldl stepMax (stepMax acc (x, v)) = _
        rw [ih X' (stepMax acc (x, v)) hlen' hne']
        obtain ⟨_, hval, _⟩ := npArgmax_spec hne'
        by_cases hle : listMax (c :: u) ≤ v
        · have hidx : npArgmax (v :: c :: u) = 0 := by simp [npArgmax, hle]
          rw [hidx]
          have hm : (c :: u).getD (npArgmax (c :: u)) 0 ≤ v := le_of_eq_of_le hval hle
          have hmerge : mergeMax (some (x, v))
              (some (retrieve_rows X' (npArgmax (c :: u)), (c :: u).getD (npArgmax (c :: u)) 0)) =
              some (x, v) := by
            simp only [mergeMax]
            rw [if_neg (not_lt.mpr hm)]
          rw [stepMax_eq_merge, stepMax_eq_merge acc, mergeMax_assoc, hmerge,
            ← stepMax_eq_merge]
          rfl
        · have hidx : npArgmax (v :: c :: u) = npArgmax (c :: u) + 1 := by
            simp [npArgmax, hle]
          rw [hidx]
          push_neg at hle
          have hm : v < (c :: u).getD (npArgmax (c :: u)) 0 := lt_of_lt_of_eq hle hval.symm
          have hmerge : mergeMax (some (x, v))
              (some (retrieve_rows X' (npArgmax (c :: u)), (c :: u).getD (npArgmax (c :: u)) 0)) =
              some (retrieve_rows X' (npArgmax (c :: u)), (c :: u).getD (npArgmax (c :: u)) 0) := by
            simp only [mergeMax]
            rw [if_pos hm]
          rw [stepMax_eq_merge, stepMax_eq_merge acc, mergeMax_assoc, hmerge,
            ← stepMax_eq_merge]
          rfl

/-- A matrix of uniform row width is rectangular. -/
theorem rect_of_uniform {X : Mat} {w : ℕ} (h : ∀ r ∈ X, r.length = w) : rect X = true := by
  cases X with
  | nil => rfl
  | cons r t =>
    simp only [rect, List.all_eq_true]
    intro s hs
    rw [h s (List.mem_cons_of_mem r hs), h r (List.mem_cons_self r t)]
    exact beq_self_eq_true w

/-- A batch of aligned row counts, at least one sample and uniform width passes
the 1-d label validation. -/
theorem check_X_y1_of_valid {X : Mat} {y : List ℚ} {w : ℕ}
    (hlen : X.length = y.length) (hne : X ≠ []) (hw : ∀ r ∈ X, r.length = w) :
    check_X_y1 X y = true := by
  have h0 : X.length ≠ 0 := fun h => hne (List.length_eq_zero.mp h)
  have hy : y ≠ [] := by
    intro h
    rw [h] at hlen
    exact hne (List.length_eq_zero.mp (by simpa using hlen))
  simp [check_X_y1, hlen, h0, hy, rect_of_uniform hw]

/-- Stacking two blocks of the same uniform row width always succeeds and
concatenates. -/
theorem data_vstack_of_uniform {A B : Mat} {w : ℕ}
    (ha : ∀ r ∈ A, r.length = w) (hb : ∀ r ∈ B, r.length = w) :
    data_vstack A B = .ok (A ++ B) := by
  cases A with
  | nil => simp [data_vstack]
  | cons a t =>
    cases B with
    | nil => simp [data_vstack]
    | cons b u =>
      simp only [data_vstack]
      rw [ha a (List.mem_cons_self a t), hb b (List.mem_cons_self b u)]
      simp

/-- `_set_max` touches only the running maximum: the buffers and the fit log
are unchanged. -/
theorem set_max_frame (s : BOState) (X : Mat) (y : List ℚ) :
    (BayesianOptimizer._set_max s X y).X_training = s.X_training ∧
    (BayesianOptimizer._set_max s X y).y_training = s.y_training ∧
    (BayesianOptimizer._set_max s X y).fitLog = s.fitLog := by
  rcases hm : s.y_max with _ | cur
  · simp [BayesianOptimizer._set_max, hm]
  · simp only [BayesianOptimizer._set_max, hm]
    split_ifs <;> simp

/-- `_set_max` on a valid batch advances the running maximum exactly as the
specification fold over the batch pairs does. -/
theorem set_max_as_fold (s : BOState) (X : Mat) (y : List ℚ) (acc : Option (Row × ℚ))
    (hlen : X.length = y.length) (hne : y ≠ [])
    (hX : s.X_max = acc.map Prod.fst) (hy : s.y_max = acc.map Prod.snd) :
    (BayesianOptimizer._set_max s X y).X_max = ((X.zip y).foldl stepMax acc).map Prod.fst ∧
    (BayesianOptimizer._set_max s X y).y_max = ((X.zip y).foldl stepMax acc).map Prod.snd := by
  rw [zip_foldl_argmax y X acc hlen hne]
  rcases acc with _ | q
  · simp only [Option.map_none'] at hX hy
    constructor <;> simp [BayesianOptimizer._set_max, hy, stepMax]
  · simp only [Option.map_some'] at hX hy
    simp only [BayesianOptimizer._set_max, hy, stepMax]
    split_ifs
    · constructor <;> simp
    · constructor <;> simp [hX, hy]

/-- A successful `BayesianOptimizer.teach` reaches `_set_max` through a state
whose running maximum is untouched, whose X buffer has grown by the new batch
regardless of `only_new`, and whose fit log has gained exactly the requested
fit (full new buffer, or new batch only). -/
theorem teach_state_eq (s : BOState) (X : Mat) (y : List ℚ) (b o : Bool)
    (hchk : check_X_y1 X y = true)
    (hstack : s.X_training = none ∨
      ∃ Xt, s.X_training = some Xt ∧ data_vstack Xt X = .ok (Xt ++ X)) :
    ∃ s'', BayesianOptimizer.teach s X y b o = (BayesianOptimizer._set_max s'' X y, none) ∧
      s''.X_max = s.X_max ∧ s''.y_max = s.y_max ∧
      s''.X_training = some (s.X_training.getD [] ++ X) ∧
      (s.X_training = none → s''.y_training = some y) ∧
      (s.X_training ≠ none → s''.y_training = some (s.y_training.getD [] ++ y)) ∧
      s''.fitLog = s.fitLog ++
        [if o then ⟨X, y, b⟩ else ⟨s''.X_training.getD [], s''.y_training.getD [], b⟩] := by
  rcases hstack with hbuf | ⟨Xt, hbuf, hstk⟩
  · have hadd : BayesianOptimizer._add_training_data s X y =
        ({ s with X_training := some X, y_training := some y }, none) := by
      simp [BayesianOptimizer._add_training_data, hchk, hbuf]
    cases o with
    | false =>
      refine ⟨BayesianOptimizer._fit_to_known
        { s with X_training := some X, y_training := some y } b, ?_, ?_, ?_, ?_, ?_, ?_, ?_⟩
      · simp [BayesianOptimizer.teach, hadd]
      · simp [BayesianOptimizer._fit_to_known]
      · simp [BayesianOptimizer._fit_to_known]
      · simp [BayesianOptimizer._fit_to_known, hbuf]
      · intro _; simp [BayesianOptimizer._fit_to_known]
      · intro hcon; exact absurd hbuf hcon
      · simp [BayesianOptimizer._fit_to_known]
    | true =>
      refine ⟨BayesianOptimizer._fit_on_new
        { s with X_training := some X, y_training := some y } X y b, ?_, ?_, ?_, ?_, ?_, ?_, ?_⟩
      · simp [BayesianOptimizer.teach, hadd]
      · simp [BayesianOptimizer._fit_on_new]
      · simp [BayesianOptimizer._fit_on_new]
      · simp [BayesianOptimizer._fit_on_new, hbuf]
      · intro _; simp [BayesianOptimizer._fit_on_new]
      · intro hcon; exact absurd hbuf hcon
      · simp [BayesianOptimizer._fit_on_new]
  · have hadd : BayesianOptimizer._add_training_data s X y =
        ({ s with X_training := some (Xt ++ X),
                  y_training := some (s.y_training.getD [] ++ y) }, none) := by
      simp [BayesianOptimizer._add_training_data, hchk, hbuf, hstk]
    cases o with
    | false =>
      refine ⟨BayesianOptimizer._fit_to_known
        { s with X_training := some (Xt ++ X),
                 y_training := some (s.y_training.getD [] ++ y) } b, ?_, ?_, ?_, ?_, ?_, ?_, ?_⟩
      · simp [BayesianOptimizer.teach, hadd]
      · simp [BayesianOptimizer._fit_to_known]
      · simp [BayesianOptimizer._fit_to_known]
      · simp [BayesianOptimizer._fit_to_known, hbuf]
      · intro hcon; rw [hcon] at hbuf; cases hbuf
      · intro _; simp [BayesianOptimizer._fit_to_known]
      · simp [BayesianOptimizer._fit_to_known]
    | true =>
      refine ⟨BayesianOptimizer._fit_on_new
        { s with X_training := some (Xt ++ X),
                 y_training := some (s.y_training.getD [] ++ y) } X y b, ?_, ?_, ?_, ?_, ?_, ?_, ?_⟩
      · simp [BayesianOptimizer.teach, hadd]
      · simp [BayesianOptimizer._fit_on_new]
      · simp [BayesianOptimizer._fit_on_new]
      · simp [BayesianOptimizer._fit_on_new, hbuf]
      · intro hcon; rw [hcon] at hbuf; cases hbuf
      · intro _; simp [BayesianOptimizer._fit_on_new]
      · simp [BayesianOptimizer._fit_on_new]

/-- Folding a sequence of teach calls advances the running maximum exactly as
the specification fold over all observed pairs does, preserving the uniform
buffer width. -/
theorem teachAll_max : ∀ (calls : List TeachCall) (s : BOState) (w : ℕ)
    (acc : Option (Row × ℚ)),
    (∀ c ∈ calls, ValidCall w c) →
    (∀ Xt, s.X_training = some Xt → ∀ r ∈ Xt, r.length = w) →
    s.X_max = acc.map Prod.fst → s.y_max = acc.map Prod.snd →
    (teachAll s calls).X_max = ((obsPairs calls).foldl stepMax acc).map Prod.fst ∧
    (teachAll s calls).y_max = ((obsPairs calls).foldl stepMax acc).map Prod.snd := by
  intro calls
  induction calls with
  | nil =>
    intro s w acc _ _ hX hy
    exact ⟨hX, hy⟩
  | cons c calls ih =>
    intro s w acc hval hb hX hy
    obtain ⟨hlen, hneX, hw⟩ := hval c (List.mem_cons_self c calls)
    have hchk := check_X_y1_of_valid hlen hneX hw
    have hney : c.y ≠ [] := by
      intro h
      rw [h] at hlen
      exact hneX (List.length_eq_zero.mp (by simpa using hlen))
    have hstack : s.X_training = none ∨
        ∃ Xt, s.X_training = some Xt ∧ data_vstack Xt c.X = .ok (Xt ++ c.X) := by
      rcases hbuf : s.X_training with _ | Xt
      · exact Or.inl rfl
      · exact Or.inr ⟨Xt, rfl, data_vstack_of_uniform (hb Xt hbuf) hw⟩
    obtain ⟨s'', heq, hXm, hym, hXtr, _, _, _⟩ :=
      teach_state_eq s c.X c.y c.bootstrap c.only_new hchk hstack
    have hstep1 : (BayesianOptimizer.teach s c.X c.y c.bootstrap c.only_new).1 =
        BayesianOptimizer._set_max s'' c.X c.y := by
      rw [heq]
    have hfold := set_max_as_fold s'' c.X c.y acc hlen hney (hXm.trans hX) (hym.trans hy)
    have hframe := set_max_frame s'' c.X c.y
    have hb' : ∀ Xt, (BayesianOptimizer.teach s c.X c.y c.bootstrap c.only_new).1.X_training =
        some Xt → ∀ r ∈ Xt, r.length = w := by
      intro Xt hXt r hr
      rw [hstep1, hframe.1, hXtr] at hXt
      injection hXt with hXt
      subst hXt
      rcases List.mem_append.mp hr with hr | hr
      · rcases hbuf2 : s.X_training with _ | Xt0
        · rw [hbuf2] at hr
          cases hr
        · rw [hbuf2] at hr
          exact hb Xt0 hbuf2 r hr
      · exact hw r hr
    have hrest := ih ((BayesianOptimizer.teach s c.X c.y c.bootstrap c.only_new).1) w
      ((c.X.zip c.y).foldl stepMax acc)
      (fun d hd => hval d (List.mem_cons_of_mem c hd)) hb'
      (by rw [hstep1]; exact hfold.1) (by rw [hstep1]; exact hfold.2)
    have hTA : teachAll s (c :: calls) =
        teachAll ((BayesianOptimizer.teach s c.X c.y c.bootstrap c.only_new).1) calls := rfl
    have hOP : obsPairs (c :: calls) = c.X.zip c.y ++ obsPairs calls := rfl
    rw [hTA, hOP, List.foldl_append]
    exact hrest

/-- The running maximum seeded by the constructor equals the specification
fold over the initial pairs (and is minus infinity at an unknown location when
no initial data is given). -/
theorem init_max (d : Option (Mat × List ℚ)) (b0 : Bool)
    (hd : ∀ X0 y0, d = some (X0, y0) → X0.length = y0.length ∧ X0 ≠ []) :
    (BayesianOptimizer.init d b0).X_max = (runMax (initPairs d)).map Prod.fst ∧
    (BayesianOptimizer.init d b0).y_max = (runMax (initPairs d)).map Prod.snd := by
  rcases d with _ | ⟨X0, y0⟩
  · exact ⟨rfl, rfl⟩
  · obtain ⟨hlen, hne⟩ := hd X0 y0 rfl
    have hney : y0 ≠ [] := by
      intro h
      rw [h] at hlen
      exact hne (List.length_eq_zero.mp (by simpa using hlen))
    have hfold : runMax (X0.zip y0) =
        stepMax none (retrieve_rows X0 (npArgmax y0), y0.getD (npArgmax y0) 0) :=
      zip_foldl_argmax y0 X0 none hlen hney
    constructor <;> simp [BayesianOptimizer.init, initPairs, hfold, stepMax]

/-- `_set_max` computes exactly `maxUpdate` of the previous running maximum and
the new batch. -/
theorem set_max_maxUpdate (u : BOState) (X : Mat) (y : List ℚ) :
    ((BayesianOptimizer._set_max u X y).X_max, (BayesianOptimizer._set_max u X y).y_max) =
      maxUpdate (u.X_max, u.y_max) X y := by
  rcases hm : u.y_max with _ | cur
  · simp [BayesianOptimizer._set_max, maxUpdate, hm]
  · simp only [BayesianOptimizer._set_max, maxUpdate, hm]
    split_ifs <;> simp [hm]

/-- Claim C6: a successful `BayesianOptimizer.teach` performs exactly these
steps in this order: it appends the batch to the accumulated buffers (growth
regardless of `only_new`), then performs the requested fit policy (the whole
grown buffer when `only_new` is false, the new batch only when true), and only
then updates the running maximum, as a pure function `maxUpdate` of the old
maximum and the new batch only, never re-scanning the accumulated history. -/
theorem C6_bayesian_teach_order (s : BOState) (X : Mat) (y : List ℚ) (b o : Bool)
    (hchk : check_X_y1 X y = true)
    (hpair : (s.X_training = none ∧ s.y_training = none) ∨
      ∃ Xt yt, s.X_training = some Xt ∧ s.y_training = some yt ∧
        data_vstack Xt X = .ok (Xt ++ X)) :
    (BayesianOptimizer.teach s X y b o).2 = none ∧
    (BayesianOptimizer.teach s X y b o).1.X_training = some (s.X_training.getD [] ++ X) ∧
    (BayesianOptimizer.teach s X y b o).1.y_training = some (s.y_training.getD [] ++ y) ∧
    (BayesianOptimizer.teach s X y b o).1.fitLog = s.fitLog ++
      [if o then ⟨X, y, b⟩
       else ⟨s.X_training.getD [] ++ X, s.y_training.getD [] ++ y, b⟩] ∧
    ((BayesianOptimizer.teach s X y b o).1.X_max,
      (BayesianOptimizer.teach s X y b o).1.y_max) =
      maxUpdate (s.X_max, s.y_max) X y := by
  have hstack : s.X_training = none ∨
      ∃ Xt, s.X_training = some Xt ∧ data_vstack Xt X = .ok (Xt ++ X) := by
    rcases hpair with ⟨h1, _⟩ | ⟨Xt, yt, h1, _, h3⟩
    · exact Or.inl h1
    · exact Or.inr ⟨Xt, h1, h3⟩
  obtain ⟨s'', heq, hXm, hym, hXtr, hyN, hyS, hlog⟩ := teach_state_eq s X y b o hchk hstack
  have hframe := set_max_frame s'' X y
  have hytr : s''.y_training = some (s.y_training.getD [] ++ y) := by
    rcases hpair with ⟨h1, h2⟩ | ⟨Xt, yt, h1, h2, _⟩
    · rw [hyN h1, h2]
      simp
    · rw [hyS (by rw [h1]; intro hcon; cases hcon), h2]
  refine ⟨by rw [heq], ?_, ?_, ?_, ?_⟩
  · rw [heq]
    show (BayesianOptimizer._set_max s'' X y).X_training = _
    rw [hframe.1, hXtr]
  · rw [heq]
    show (BayesianOptimizer._set_max s'' X y).y_training = _
    rw [hframe.2.1, hytr]
  · rw [heq]
    show (BayesianOptimizer._set_max s'' X y).fitLog = _
    rw [hframe.2.2, hlog, hXtr, hytr]
    simp
  · rw [heq]
    show ((BayesianOptimizer._set_max s'' X y).X_max,
        (BayesianOptimizer._set_max s'' X y).y_max) = _
    rw [set_max_maxUpdate, hXm, hym]

/-- Witness for claim C6 at concrete inputs: teaching (X = [[7]], y = [9]) to
an optimizer holding one row [[1]] with value 4 grows the buffer under both
fit policies, logs a full-buffer fit when only_new is false and a new-batch
fit when it is true, and raises the running maximum to ([7], 9). -/
theorem C6_bayesian_teach_order_witness :
    (BayesianOptimizer.teach C6_state [[7]] [9] false false).1.X_training = some [[1], [7]] ∧
    (BayesianOptimizer.teach C6_state [[7]] [9] false false).1.y_training = some [4, 9] ∧
    (BayesianOptimizer.teach C6_state [[7]] [9] false false).1.fitLog =
      [⟨[[1], [7]], [4, 9], false⟩] ∧
    (BayesianOptimizer.teach C6_state [[7]] [9] false true).1.X_training = some [[1], [7]] ∧
    (BayesianOptimizer.teach C6_state [[7]] [9] false true).1.fitLog = [⟨[[7]], [9], false⟩] ∧
    (BayesianOptimizer.teach C6_state [[7]] [9] false false).1.y_max = some 9 := by
  have h1 := C6_bayesian_teach_order C6_state [[7]] [9] false false (by decide)
    (Or.inr ⟨[[1]], [4], rfl, rfl, rfl⟩)
  have h2 := C6_bayesian_teach_order C6_state [[7]] [9] false true (by decide)
    (Or.inr ⟨[[1]], [4], rfl, rfl, rfl⟩)
  refine ⟨h1.2.1.trans (by decide), h1.2.2.1.trans (by decide), h1.2.2.2.1.trans (by decide),
    h2.2.1.trans (by decide), h2.2.2.2.1.trans (by decide), ?_⟩
  have := congrArg Prod.snd h1.2.2.2.2
  exact this.trans (by decide)

/-- Claim C2: starting from no initial data the running maximum is `(unknown,
minus infinity)`; after any sequence of valid teach calls from optional valid
initial data, `y_max` is the maximum objective value over the initial data and
every teach batch, `X_max` is the row of the first pair attaining it (all
strictly earlier observed values are strictly smaller); and one teach call
whose batch maximum does not strictly exceed the current maximum leaves the
running maximum untouched. -/
theorem C2_bayesian_running_max (d : Option (Mat × List ℚ)) (calls : List TeachCall)
    (w : ℕ) (b0 : Bool)
    (hd : ∀ X0 y0, d = some (X0, y0) →
      X0.length = y0.length ∧ X0 ≠ [] ∧ ∀ r ∈ X0, r.length = w)
    (hc : ∀ c ∈ calls, ValidCall w c) :
    ((BayesianOptimizer.init none b0).X_max = none ∧
      (BayesianOptimizer.init none b0).y_max = none) ∧
    (initPairs d ++ obsPairs calls = [] →
      (teachAll (BayesianOptimizer.init d b0) calls).X_max = none ∧
      (teachAll (BayesianOptimizer.init d b0) calls).y_max = none) ∧
    (initPairs d ++ obsPairs calls ≠ [] →
      ∃ i, i < (initPairs d ++ obsPairs calls).length ∧
        (teachAll (BayesianOptimizer.init d b0) calls).X_max =
          some ((initPairs d ++ obsPairs calls).getD i ([], 0)).1 ∧
        (teachAll (BayesianOptimizer.init d b0) calls).y_max =
          some ((initPairs d ++ obsPairs calls).getD i ([], 0)).2 ∧
        ((initPairs d ++ obsPairs calls).getD i ([], 0)).2 =
          listMax ((initPairs d ++ obsPairs calls).map Prod.snd) ∧
        ∀ j, j < i → ((initPairs d ++ obsPairs calls).getD j ([], 0)).2 <
          ((initPairs d ++ obsPairs calls).getD i ([], 0)).2) ∧
    (∀ (t : BOState) (Xb : Mat) (yb : List ℚ) (b o : Bool) (cur : ℚ), yb ≠ [] →
      t.y_max = some cur → listMax yb ≤ cur →
      (BayesianOptimizer.teach t Xb yb b o).1.X_max = t.X_max ∧
      (BayesianOptimizer.teach t Xb yb b o).1.y_max = t.y_max) := by
  have hinit := init_max d b0 (fun X0 y0 h => ⟨(hd X0 y0 h).1, (hd X0 y0 h).2.1⟩)
  have hbinit : ∀ Xt, (BayesianOptimizer.init d b0).X_training = some Xt →
      ∀ r ∈ Xt, r.length = w := by
    rcases d with _ | ⟨X0, y0⟩
    · intro Xt hXt
      cases hXt
    · intro Xt hXt
      have hXX : Xt = X0 := by
        simpa [BayesianOptimizer.init] using hXt.symm
      rw [hXX]
      exact (hd X0 y0 rfl).2.2
  have hmain := teachAll_max calls (BayesianOptimizer.init d b0) w
    (runMax (initPairs d)) hc hbinit hinit.1 hinit.2
  have hruns : runMax (initPairs d ++ obsPairs calls) =
      (obsPairs calls).foldl stepMax (runMax (initPairs d)) := by
    show (initPairs d ++ obsPairs calls).foldl stepMax none = _
    rw [List.foldl_append]
    rfl
  refine ⟨⟨rfl, rfl⟩, ?_, ?_, ?_⟩
  · intro hobs
    have : runMax (initPairs d ++ obsPairs calls) = none := by
      rw [hobs]
      rfl
    rw [hruns] at this
    rw [hmain.1, hmain.2, this]
    exact ⟨rfl, rfl⟩
  · intro hobs
    obtain ⟨i, hi, hrun, hval, hfirst⟩ := runMax_spec hobs
    refine ⟨i, hi, ?_, ?_, hval, hfirst⟩
    · rw [hmain.1, ← hruns, hrun]
      rfl
    · rw [hmain.2, ← hruns, hrun]
      rfl
  · intro t Xb yb b o cur hney hcur hle
    have hsetmax : ∀ u : BOState, u.y_max = t.y_max →
        (BayesianOptimizer._set_max u Xb yb).X_max = u.X_max ∧
        (BayesianOptimizer._set_max u Xb yb).y_max = u.y_max := by
      intro u hu
      have hval := (npArgmax_spec hney).2.1
      have hcmp : ¬(cur < yb.getD (npArgmax yb) 0) := by
        rw [hval]
        exact not_lt.mpr hle
      simp only [BayesianOptimizer._set_max, hu, hcur]
      rw [if_neg hcmp]
      exact ⟨rfl, hu.trans hcur⟩
    cases hchk : check_X_y1 Xb yb with
    | false =>
      constructor <;>
        simp [BayesianOptimizer.teach, BayesianOptimizer._add_training_data, hchk]
    | true =>
      rcases hbuf : t.X_training with _ | Xt
      · obtain ⟨s'', heq, hXm, hym, _, _, _, _⟩ :=
          teach_state_eq t Xb yb b o hchk (Or.inl hbuf)
        rw [heq]
        obtain ⟨e1, e2⟩ := hsetmax s'' hym
        exact ⟨e1.trans hXm, e2.trans hym⟩
      · rcases hv : data_vstack Xt Xb with e | C
        · constructor <;>
            simp [BayesianOptimizer.teach, BayesianOptimizer._add_training_data, hchk, hbuf, hv]
        · have hC : C = Xt ++ Xb := data_vstack_ok hv
          subst hC
          obtain ⟨s'', heq, hXm, hym, _, _, _, _⟩ :=
            teach_state_eq t Xb yb b o hchk (Or.inr ⟨Xt, hbuf, hv⟩)
          rw [heq]
          obtain ⟨e1, e2⟩ := hsetmax s'' hym
          exact ⟨e1.trans hXm, e2.trans hym⟩

/-- Witness for claim C2 at the concrete example: objective values 3, 1, 5, 2
taught one row at a time from no initial data; `y_max` is the maximum of all
observed values and `get_max` returns the row carrying the value 5 together
with 5. -/
theorem C2_bayesian_running_max_witness :
    (teachAll (BayesianOptimizer.init none false) C2_calls).y_max =
      some (listMax ((initPairs none ++ obsPairs C2_calls).map Prod.snd)) ∧
    BayesianOptimizer.get_max (teachAll (BayesianOptimizer.init none false) C2_calls) =
      (some [12], some 5) := by
  have h := C2_bayesian_running_max none C2_calls 1 false
    (fun X0 y0 hx => by cases hx) (by decide)
  obtain ⟨i, _, _, hy, hval, _⟩ := h.2.2.1 (by decide)
  constructor
  · rw [hy, hval]
  · decide

/-- Claim C8: `ActiveLearner.fit` replaces all previously accumulated training
data: after a successful call `X_training = X` and `y_training = y` regardless
of the prior buffers; it validates shape alignment first, and when the row
counts of `X` and `y` differ it raises a validation error and keeps the prior
buffer untouched. -/
theorem C8_fit_replaces_buffer (s : ALState) (X y : Mat) (b : Bool) :
    (check_X_y X y = true →
      (ActiveLearner.fit s X y b).2 = none ∧
      (ActiveLearner.fit s X y b).1.X_training = some X ∧
      (ActiveLearner.fit s X y b).1.y_training = some y) ∧
    (X.length ≠ y.length →
      (ActiveLearner.fit s X y b).2.isSome = true ∧ (ActiveLearner.fit s X y b).1 = s) := by
  constructor
  · intro h
    simp [ActiveLearner.fit, h, ActiveLearner._fit_to_known]
  · intro h
    have hc : check_X_y X y = false := by
      simp [check_X_y, h]
    simp [ActiveLearner.fit, hc]

/-- Witness for claim C8 at concrete inputs: a valid fit replaces a prior
buffer, and a fit whose X has two rows against a one-row y fails and keeps the
prior state. -/
theorem C8_fit_replaces_buffer_witness :
    (ActiveLearner.fit C1_state [[2]] [[3]] false).1.X_training = some [[2]] ∧
    (ActiveLearner.fit C1_state [[2], [3]] [[3]] false).1 = C1_state := by
  exact ⟨((C8_fit_replaces_buffer C1_state [[2]] [[3]] false).1 (by decide)).2.1,
         ((C8_fit_replaces_buffer C1_state [[2], [3]] [[3]] false).2 (by decide)).2⟩

/-- Claim C7: for valid `(X, y)`, `ActiveLearner.teach` with `only_new = true`
raises nothing, leaves both accumulated buffers unchanged, and fits the
estimator on exactly the new batch, bypassing the buffer. -/
theorem C7_teach_only_new_frame (s : ALState) (X y : Mat) (b : Bool)
    (h : check_X_y X y = true) :
    (ActiveLearner.teach s X y b true).2 = none ∧
    (ActiveLearner.teach s X y b true).1.X_training = s.X_training ∧
    (ActiveLearner.teach s X y b true).1.y_training = s.y_training ∧
    (ActiveLearner.teach s X y b true).1.fitLog = s.fitLog ++ [⟨X, y, b⟩] := by
  simp [ActiveLearner.teach, h, ActiveLearner._fit_on_new]

/-- Witness for claim C7 at a concrete input: teaching with `only_new = true`
on a nonempty buffer leaves that buffer unchanged and logs a new-batch fit. -/
theorem C7_teach_only_new_frame_witness :
    (ActiveLearner.teach C1_state [[7]] [[8, 9]] false true).1.X_training = some [[1]] ∧
    (ActiveLearner.teach C1_state [[7]] [[8, 9]] false true).1.y_training = some [[1, 2]] ∧
    (ActiveLearner.teach C1_state [[7]] [[8, 9]] false true).1.fitLog = [⟨[[7]], [[8, 9]], false⟩] := by
  have h := C7_teach_only_new_frame C1_state [[7]] [[8, 9]] false (by decide)
  exact ⟨h.2.1, h.2.2.1, h.2.2.2⟩

/-- Counterexample to claim C1 as stated: starting from a buffer whose X rows
are 1-wide and whose multi-output y rows are 2-wide, teaching a batch whose X
agrees with the X buffer but whose y rows are 3-wide raises a validation error
(shape disagreement with the accumulated buffer), yet `X_training` has been
mutated: the X buffer was stacked before the y stacking failed. -/
theorem C1_counterexample :
    ((ActiveLearner.teach C1_state [[2]] [[3, 4, 5]] false false).2.isSome = true) ∧
    (ActiveLearner.teach C1_state [[2]] [[3, 4, 5]] false false).1.X_training ≠
      C1_state.X_training ∧
    (ActiveLearner.teach C1_state [[2]] [[3, 4, 5]] false false).1.X_training =
      some [[1], [2]] := by
  decide

/-- Claim C1 as amended: a failing `fit` leaves the state fully unchanged; a
failing `teach` leaves `y_training` and the fit log unchanged and leaves
`X_training` either unchanged or (only when the new X stacked onto the X
buffer successfully and the y stacking then failed) equal to the old X buffer
with X appended; and any failure of the row-count validation itself leaves the
state fully unchanged. -/
theorem C1_failure_frame (s : ALState) (X y : Mat) (b o : Bool) :
    ((ActiveLearner.fit s X y b).2.isSome = true → (ActiveLearner.fit s X y b).1 = s) ∧
    ((ActiveLearner.teach s X y b o).2.isSome = true →
      (ActiveLearner.teach s X y b o).1.y_training = s.y_training ∧
      (ActiveLearner.teach s X y b o).1.fitLog = s.fitLog ∧
      ((ActiveLearner.teach s X y b o).1.X_training = s.X_training ∨
        ∃ Xt, s.X_training = some Xt ∧
          (ActiveLearner.teach s X y b o).1.X_training = some (Xt ++ X)) ∧
      (check_X_y X y = false → (ActiveLearner.teach s X y b o).1 = s)) := by
  constructor
  · intro h
    cases hc : check_X_y X y with
    | false => simp [ActiveLearner.fit, hc]
    | true => simp [ActiveLearner.fit, hc] at h
  · intro h
    cases o with
    | true =>
      cases hc : check_X_y X y with
      | false => simp [ActiveLearner.teach, hc]
      | true => simp [ActiveLearner.teach, hc, ActiveLearner._fit_on_new] at h
    | false =>
      cases hc : check_X_y X y with
      | false =>
        simp [ActiveLearner.teach, ActiveLearner._add_training_data, hc]
      | true =>
        cases hX : s.X_training with
        | none =>
          simp [ActiveLearner.teach, ActiveLearner._add_training_data, hc, hX,
            ActiveLearner._fit_to_known] at h
        | some Xt =>
          cases hv : data_vstack Xt X with
          | error e =>
            simp [ActiveLearner.teach, ActiveLearner._add_training_data, hc, hX, hv]
          | ok XtX =>
            have hXtX : XtX = Xt ++ X := data_vstack_ok hv
            cases hyt : s.y_training with
            | none =>
              refine ⟨?_, ?_, ?_, ?_⟩
              · simp [ActiveLearner.teach, ActiveLearner._add_training_data, hc, hX, hv, hyt]
              · simp [ActiveLearner.teach, ActiveLearner._add_training_data, hc, hX, hv, hyt]
              · refine Or.inr ⟨Xt, rfl, ?_⟩
                simp [ActiveLearner.teach, ActiveLearner._add_training_data, hc, hX, hv, hyt,
                  hXtX]
              · intro hcf; simp [hc] at hcf
            | some yt =>
              cases hvy : data_vstack yt y with
              | error e =>
                refine ⟨?_, ?_, ?_, ?_⟩
                · simp [ActiveLearner.teach, ActiveLearner._add_training_data, hc, hX, hv,
                    hyt, hvy]
                · simp [ActiveLearner.teach, ActiveLearner._add_training_data, hc, hX, hv,
                    hyt, hvy]
                · refine Or.inr ⟨Xt, rfl, ?_⟩
                  simp [ActiveLearner.teach, ActiveLearner._add_training_data, hc, hX, hv,
                    hyt, hvy, hXtX]
                · intro hcf; simp [hc] at hcf
              | ok yty =>
                simp [ActiveLearner.teach, ActiveLearner._add_training_data, hc, hX, hv,
                  hyt, hvy, ActiveLearner._fit_to_known] at h

/-- Witness for the amended claim C1 at concrete inputs: the failing teach of
the counterexample keeps `y_training` and the fit log, and its X buffer is the
old buffer with the new X appended; a teach with mismatched row counts keeps
the state fully unchanged. -/
theorem C1_failure_frame_witness :
    (ActiveLearner.teach C1_state [[2]] [[3, 4, 5]] false false).1.y_training =
      C1_state.y_training ∧
    (ActiveLearner.teach C1_state [[2]] [[3, 4, 5]] false false).1.fitLog = [] ∧
    (ActiveLearner.teach C1_state [[2], [3]] [[3, 4]] false false).1 = C1_state := by
  have h1 := (C1_failure_frame C1_state [[2]] [[3, 4, 5]] false false).2 (by decide)
  have h2 := (C1_failure_frame C1_state [[2], [3]] [[3, 4]] false false).2 (by decide)
  exact ⟨h1.1, h1.2.1, h2.2.2.2 (by decide)⟩

/-- Reading an in-range position of a mapped range evaluates the function. -/
theorem range_map_getD {α : Type} (f : ℕ → α) (n s : ℕ) (d : α) (hs : s < n) :
    ((List.range n).map f).getD s d = f s := by
  rw [List.getD_eq_getElem?_getD, List.getElem?_eq_getElem (by simpa using hs)]
  simp

/-- Reading an in-range position of a mapped list evaluates the function at
that position. -/
theorem map_getD_lt {α β : Type} (f : α → β) (l : List α) (i : ℕ) (d : β) (d' : α)
    (h : i < l.length) : (l.map f).getD i d = f (l.getD i d') := by
  rw [List.getD_eq_getElem?_getD, List.getElem?_eq_getElem (by simpa using h),
    List.getD_eq_getElem?_getD, List.getElem?_eq_getElem h]
  simp

/-- The sum of a constant list. -/
theorem sum_of_all_eq : ∀ {l : List ℚ} {v : ℚ}, (∀ x ∈ l, x = v) →
    l.sum = (l.length : ℚ) * v := by
  intro l
  induction l with
  | nil => intro v _; simp
  | cons a t ih =>
    intro v h
    rw [List.sum_cons, ih (fun x hx => h x (List.mem_cons_of_mem a hx)),
      h a (List.mem_cons_self a t)]
    simp only [List.length_cons]
    push_cast
    ring

/-- An in-range default read is a member of the list. -/
theorem getD_mem_of_lt {α : Type} (l : List α) (i : ℕ) (d : α) (h : i < l.length) :
    l.getD i d ∈ l := by
  rw [List.getD_eq_getElem?_getD, List.getElem?_eq_getElem h]
  exact List.getElem_mem h

/-- Claim C9: `CommitteeRegressor.predict` with `return_std = true` returns per
sample the arithmetic mean of the member predictions across the learner axis,
and the population standard deviation across members: its square averages the
squared deviations with divisor the number of members (not members minus one);
in particular the standard deviation is exactly 0 on every sample where all
members predict the same value, which is then also the mean. -/
theorem C9_regressor_mean_std (ms : List RMember) (n : ℕ) (s : ℕ)
    (hms : ms ≠ []) (hs : s < n) :
    ((CommitteeRegressor.predict_return_std ms n).1.getD s 0 =
      (ms.map (fun m => m.pred.getD s 0)).sum / (ms.length : ℚ)) ∧
    ((CommitteeRegressor.predict_return_std ms n).2.getD s 0 * (ms.length : ℚ) =
      (ms.map (fun m => (m.pred.getD s 0 -
        (ms.map (fun m' => m'.pred.getD s 0)).sum / (ms.length : ℚ)) ^ 2)).sum) ∧
    (∀ v : ℚ, (∀ m ∈ ms, m.pred.getD s 0 = v) →
      (CommitteeRegressor.predict_return_std ms n).1.getD s 0 = v ∧
      Real.sqrt ((CommitteeRegressor.predict_return_std ms n).2.getD s 0) = 0) := by
  have hlen0 : (ms.length : ℚ) ≠ 0 := by
    simpa using fun h => hms (List.length_eq_zero.mp h)
  have hvote : (CommitteeRegressor.vote ms n).getD s [] =
      ms.map (fun m => m.pred.getD s 0) :=
    range_map_getD _ n s [] hs
  have h1 : (CommitteeRegressor.predict_return_std ms n).1.getD s 0 =
      npMean (ms.map (fun m => m.pred.getD s 0)) := by
    show ((CommitteeRegressor.vote ms n).map npMean).getD s 0 = _
    rw [map_getD_lt npMean (CommitteeRegressor.vote ms n) s 0 []
        (by simp [CommitteeRegressor.vote, hs]), hvote]
  have h2 : (CommitteeRegressor.predict_return_std ms n).2.getD s 0 =
      npStdSq (ms.map (fun m => m.pred.getD s 0)) := by
    show ((CommitteeRegressor.vote ms n).map npStdSq).getD s 0 = _
    rw [map_getD_lt npStdSq (CommitteeRegressor.vote ms n) s 0 []
        (by simp [CommitteeRegressor.vote, hs]), hvote]
  refine ⟨?_, ?_, ?_⟩
  · rw [h1]
    simp [npMean]
  · rw [h2, npStdSq, List.length_map, div_mul_cancel₀ _ hlen0, List.map_map]
    have hfun : ((fun x => (x - npMean (ms.map (fun m => m.pred.getD s 0))) ^ 2) ∘
        (fun m : RMember => m.pred.getD s 0)) =
        (fun m : RMember => (m.pred.getD s 0 -
          (ms.map (fun m' => m'.pred.getD s 0)).sum / (ms.length : ℚ)) ^ 2) := by
      funext m
      simp [Function.comp, npMean, List.length_map]
    rw [hfun]
  · intro v hv
    have hmean : npMean (ms.map (fun m => m.pred.getD s 0)) = v := by
      rw [npMean, sum_of_all_eq (by
        intro x hx
        obtain ⟨m, hm, rfl⟩ := List.mem_map.mp hx
        exact hv m hm)]
      rw [List.length_map]
      field_simp
    have hvar : npStdSq (ms.map (fun m => m.pred.getD s 0)) = 0 := by
      rw [npStdSq]
      have hzero : ((ms.map (fun m => m.pred.getD s 0)).map
          (fun x => (x - npMean (ms.map (fun m => m.pred.getD s 0))) ^ 2)).sum = 0 := by
        rw [sum_of_all_eq (v := 0) (by
          intro x hx
          obtain ⟨z, hz, rfl⟩ := List.mem_map.mp hx
          obtain ⟨m, hm, rfl⟩ := List.mem_map.mp hz
          rw [hmean, hv m hm]
          ring)]
        ring
      rw [hzero]
      simp
    refine ⟨h1.trans hmean, ?_⟩
    rw [h2, hvar]
    simp

/-- A fully numeric prediction vector coerces elementwise under the monadic
map used by the column assignment. -/
theorem mapM_float_of_isSome : ∀ {ps : List PyLabel},
    (∀ p ∈ ps, (floatOfLabel p).isSome) →
    ps.mapM floatOfLabel = some (ps.map (fun p => (floatOfLabel p).getD 0)) := by
  intro ps
  induction ps with
  | nil => intro _; rfl
  | cons p ps ih =>
    intro h
    rw [List.mapM_cons, ih (fun q hq => h q (List.mem_cons_of_mem p hq))]
    obtain ⟨q, hq⟩ := Option.isSome_iff_exists.mp (h p (List.mem_cons_self p ps))
    rw [hq]
    simp [hq]

/-- One non-coercible label poisons the whole coercion of a prediction
vector. -/
theorem mapM_float_of_bad : ∀ {ps : List PyLabel} {p : PyLabel}, p ∈ ps →
    floatOfLabel p = none → ps.mapM floatOfLabel = none := by
  intro ps
  induction ps with
  | nil => intro p hp _; cases hp
  | cons q ps ih =>
    intro p hp hbad
    rw [List.mapM_cons]
    rcases List.mem_cons.mp hp with rfl | hp'
    · rw [hbad]
      rfl
    · rcases hq : floatOfLabel q with _ | val
      · rfl
      · rw [ih hp' hbad]
        rfl

/-- The column assignment succeeds on a numeric member of the right length and
returns the coerced predictions. -/
theorem predColumn_ok {n : ℕ} {m : VoteMember}
    (hlen : m.preds.length = n) (hnum : ∀ p ∈ m.preds, (floatOfLabel p).isSome) :
    predColumn n m = .ok (m.preds.map (fun p => (floatOfLabel p).getD 0)) := by
  unfold predColumn
  rw [if_neg (by simp [hlen]), mapM_float_of_isSome hnum]

/-- The column assignment raises on a member predicting a label with no float
value. -/
theorem predColumn_bad {n : ℕ} {m : VoteMember} {p : PyLabel}
    (hlen : m.preds.length = n) (hp : p ∈ m.preds) (hbad : floatOfLabel p = none) :
    predColumn n m = .error "could not convert string to float" := by
  unfold predColumn
  rw [if_neg (by simp [hlen]), mapM_float_of_bad hp hbad]

/-- All columns of an all-numeric committee assemble successfully. -/
theorem mapM_columns_ok {n : ℕ} : ∀ {ms : List VoteMember},
    (∀ m ∈ ms, m.preds.length = n ∧ ∀ p ∈ m.preds, (floatOfLabel p).isSome) →
    ms.mapM (predColumn n) =
      .ok (ms.map (fun m => m.preds.map (fun p => (floatOfLabel p).getD 0))) := by
  intro ms
  induction ms with
  | nil => intro _; rfl
  | cons m ms ih =>
    intro h
    rw [List.mapM_cons, ih (fun d hd => h d (List.mem_cons_of_mem m hd)),
      predColumn_ok (h m (List.mem_cons_self m ms)).1 (h m (List.mem_cons_self m ms)).2]
    rfl

/-- A failing column assignment prevents any vote matrix from being
returned. -/
theorem mapM_columns_bad {n : ℕ} : ∀ {ms : List VoteMember} {m : VoteMember},
    m ∈ ms → predColumn n m = .error "could not convert string to float" →
    ∀ cols, ms.mapM (predColumn n) ≠ .ok cols := by
  intro ms
  induction ms with
  | nil => intro m hm _ cols _; cases hm
  | cons m0 ms ih =>
    intro m hm hbad cols hok
    rw [List.mapM_cons] at hok
    rcases h0 : predColumn n m0 with e | c0
    · rw [h0] at hok
      change Except.error e = Except.ok cols at hok
      cases hok
    · rw [h0] at hok
      rcases List.mem_cons.mp hm with rfl | hm'
      · rw [h0] at hbad
        cases hbad
      · rcases hrest : ms.mapM (predColumn n) with e | cols'
        · rw [hrest] at hok
          change Except.error e = Except.ok cols at hok
          cases hok
        · exact ih hm' hbad cols' hrest

/-- The two textually identical vote methods agree. -/
theorem deep_vote_eq_vote (n : ℕ) (ms : List VoteMember) :
    DeepCommittee.vote n ms = Committee.vote n ms := rfl

/-- Claim C10: `Committee.vote` and `DeepCommittee.vote` preallocate a float
zero matrix of shape (n_samples, n_learners) and assign each member's predict
output into its column, so the returned matrix always carries float entries:
when every predicted label is numeric the matrix holds exactly the coerced
float values (entry [sample][member] is the float of that member's label for
that sample), and when some member predicts a label with no float value, the
assignment raises and no vote matrix is returned at all. -/
theorem C10_vote_coerces_to_float (n : ℕ) (ms : List VoteMember)
    (hlen : ∀ m ∈ ms, m.preds.length = n) :
    ((∀ m ∈ ms, ∀ p ∈ m.preds, (floatOfLabel p).isSome) →
      ∃ M, Committee.vote n ms = .ok M ∧ DeepCommittee.vote n ms = .ok M ∧
        M.length = n ∧ (∀ s, s < n → (M.getD s []).length = ms.length) ∧
        ∀ s i, s < n → i < ms.length →
          some ((M.getD s []).getD i 0) =
            floatOfLabel ((ms.getD i default).preds.getD s (.num 0))) ∧
    ((∃ m ∈ ms, ∃ p ∈ m.preds, floatOfLabel p = none) →
      (∀ M, Committee.vote n ms ≠ .ok M) ∧ ∀ M, DeepCommittee.vote n ms ≠ .ok M) := by
  constructor
  · intro hnum
    have hcols := mapM_columns_ok (n := n) (fun m hm => ⟨hlen m hm, hnum m hm⟩)
    refine ⟨(List.range n).map (fun s =>
      (ms.map (fun m => m.preds.map (fun p => (floatOfLabel p).getD 0))).map
        (fun col => col.getD s 0)), ?_, ?_, by simp, ?_, ?_⟩
    · unfold Committee.vote
      rw [hcols]
    · rw [deep_vote_eq_vote]
      unfold Committee.vote
      rw [hcols]
    · intro s hs
      rw [range_map_getD _ n s [] hs]
      simp
    · intro s i hs hi
      rw [range_map_getD _ n s [] hs,
        map_getD_lt _ (ms.map (fun m => m.preds.map (fun p => (floatOfLabel p).getD 0)))
          i 0 [] (by simpa using hi),
        map_getD_lt _ ms i _ default hi]
      have hmem : ms.getD i default ∈ ms := getD_mem_of_lt ms i default hi
      have hslen : s < (ms.getD i default).preds.length := by
        rw [hlen _ hmem]
        exact hs
      rw [map_getD_lt _ (ms.getD i default).preds s 0 (.num 0) hslen]
      obtain ⟨q, hq⟩ := Option.isSome_iff_exists.mp
        (hnum _ hmem _ (getD_mem_of_lt _ s (.num 0) hslen))
      rw [hq]
      rfl
  · rintro ⟨m, hm, p, hp, hbad⟩
    have hcol := predColumn_bad (hlen m hm) hp hbad
    constructor
    · intro M hok
      unfold Committee.vote at hok
      rcases hc : ms.mapM (predColumn n) with e | cols
      · rw [hc] at hok
        cases hok
      · exact mapM_columns_bad hm hcol cols hc
    · intro M hok
      rw [deep_vote_eq_vote] at hok
      unfold Committee.vote at hok
      rcases hc : ms.mapM (predColumn n) with e | cols
      · rw [hc] at hok
        cases hok
      · exact mapM_columns_bad hm hcol cols hc

/-- Witness for claim C9 at a concrete committee: on the sample where both
members predict 2, the mean is 2 and the standard deviation is exactly 0; on
the sample where they predict 5 and 7, the squared standard deviation is 1
(population divisor 2; the sample variance would be 2). -/
theorem C9_regressor_mean_std_witness :
    (CommitteeRegressor.predict_return_std C9_members 2).1.getD 0 0 = 2 ∧
    Real.sqrt ((CommitteeRegressor.predict_return_std C9_members 2).2.getD 0 0) = 0 ∧
    (CommitteeRegressor.predict_return_std C9_members 2).2.getD 1 0 = 1 := by
  have h := C9_regressor_mean_std C9_members 2 0 (by decide) (by decide)
  obtain ⟨hm, hv⟩ := h.2.2 2 (by decide)
  have h1 := (C9_regressor_mean_std C9_members 2 1 (by decide) (by decide)).2.1
  norm_num [C9_members] at h1
  exact ⟨hm, hv, by simpa [C9_members] using h1⟩

/-- Witness for claim C10 at concrete committees: an all-numeric committee
returns a vote matrix, and a committee whose second member predicts the string
label "a" returns no vote matrix at all. -/
theorem C10_vote_coerces_to_float_witness :
    (Committee.vote 2 C10_members).toOption.isSome = true ∧
    Committee.vote 2 C10_bad ≠ .ok [[2, 1], [0, 0]] ∧
    DeepCommittee.vote 2 C10_bad ≠ .ok [[2, 1], [0, 0]] := by
  obtain ⟨M, hok, _⟩ := (C10_vote_coerces_to_float 2 C10_members (by decide)).1 (by decide)
  have hbad := (C10_vote_coerces_to_float 2 C10_bad (by decide)).2 (by decide)
  exact ⟨by rw [hok]; rfl, hbad.1 [[2, 1], [0, 0]], hbad.2 [[2, 1], [0, 0]]⟩

/-- In a duplicate-free class vector, looking up a class present at a given
position finds exactly that position. -/
theorem findIdx_beq_of_nodup : ∀ {l : List ℤ} {t : ℕ} {z : ℤ}, l.Nodup → t < l.length →
    l.getD t 0 = z → l.findIdx? (fun k => k == z) = some t := by
  intro l
  induction l with
  | nil =>
    intro t z _ ht _
    exact absurd ht (by simp)
  | cons a l ih =>
    intro t z hnd ht hz
    cases t with
    | zero =>
      have ha : a = z := hz
      rw [List.findIdx?_cons, if_pos (by simp [ha])]
    | succ t' =>
      have hz' : l.getD t' 0 = z := hz
      have ht' : t' < l.length := by simpa using ht
      have hne : a ≠ z := by
        intro hcon
        subst hcon
        exact (List.nodup_cons.mp hnd).1 (hz' ▸ getD_mem_of_lt l t' 0 ht')
      rw [List.findIdx?_cons, if_neg (by simp [hne]), List.findIdx?_succ,
        ih (List.nodup_cons.mp hnd).2 ht' hz']
      rfl

/-- A class absent from the member's classes is never found. -/
theorem findIdx_beq_of_not_mem {l : List ℤ} {z : ℤ} (h : z ∉ l) :
    l.findIdx? (fun k => k == z) = none := by
  rw [List.findIdx?_eq_none_iff]
  intro x hx
  simp only [beq_eq_false_iff_ne, ne_eq]
  intro hcon
  subst hcon
  exact h hx

/-- Claim C3: when the members of a classification Committee do not all share
the same class vector, each member's row of `vote_proba` is that member's
probability row scattered into the unified class space: a class unknown to the
member gets probability exactly 0, and a class the member knows keeps its
predicted probability, read at the class's position inside the member's own
class vector and placed at its rank within `classes_`, with no
renormalization. -/
theorem C3_vote_proba_scatter (c : Committee) (n : ℕ)
    (hdiff : check_class_labels c.learner_list = false)
    (s i j : ℕ) (hs : s < n) (hi : i < c.learner_list.length)
    (hj : j < c.classes_.length)
    (hplen : (c.learner_list.getD i default).proba.length = n)
    (hnodup : (c.learner_list.getD i default).classes.Nodup) :
    ((c.classes_.getD j 0 ∉ (c.learner_list.getD i default).classes) →
      (((Committee.vote_proba c n).getD s []).getD i []).getD j 0 = 0) ∧
    (∀ t, t < (c.learner_list.getD i default).classes.length →
      (c.learner_list.getD i default).classes.getD t 0 = c.classes_.getD j 0 →
      (((Committee.vote_proba c n).getD s []).getD i []).getD j 0 =
        ((c.learner_list.getD i default).proba.getD s []).getD t 0) := by
  have hrow : ((Committee.vote_proba c n).getD s []).getD i [] =
      c.classes_.map (fun cl =>
        match (c.learner_list.getD i default).classes.findIdx? (fun k => k == cl) with
        | some t => ((c.learner_list.getD i default).proba.getD s []).getD t 0
        | none => 0) := by
    unfold Committee.vote_proba
    rw [if_neg (by simp [hdiff]), range_map_getD _ n s [] hs,
      map_getD_lt _ c.learner_list i [] default hi]
    unfold check_class_proba
    rw [map_getD_lt _ (c.learner_list.getD i default).proba s _ []
      (by rw [hplen]; exact hs)]
  constructor
  · intro hnot
    rw [hrow, map_getD_lt _ c.classes_ j 0 0 hj, findIdx_beq_of_not_mem hnot]
  · intro t ht hteq
    rw [hrow, map_getD_lt _ c.classes_ j 0 0 hj, findIdx_beq_of_nodup hnodup ht hteq]

/-- Witness for claim C3 at a concrete committee: member A knows {0, 1} of the
unified classes [0, 1, 2] and outputs [0.3, 0.7]; its `vote_proba` row is
[0.3, 0.7, 0], never renormalized. -/
theorem C3_vote_proba_scatter_witness :
    (((Committee.vote_proba commAB 1).getD 0 []).getD 0 []).getD 0 0 = 3/10 ∧
    (((Committee.vote_proba commAB 1).getD 0 []).getD 0 []).getD 1 0 = 7/10 ∧
    (((Committee.vote_proba commAB 1).getD 0 []).getD 0 []).getD 2 0 = 0 ∧
    ((Committee.vote_proba commAB 1).getD 0 []).getD 0 [] = [3/10, 7/10, 0] := by
  have h0 := C3_vote_proba_scatter commAB 1 (by decide) 0 0 0 (by decide) (by decide)
    (by decide) (by decide) (by decide)
  have h1 := C3_vote_proba_scatter commAB 1 (by decide) 0 0 1 (by decide) (by decide)
    (by decide) (by decide) (by decide)
  have h2 := C3_vote_proba_scatter commAB 1 (by decide) 0 0 2 (by decide) (by decide)
    (by decide) (by decide) (by decide)
  exact ⟨(h0.2 0 (by decide) (by decide)).trans rfl,
    (h1.2 1 (by decide) (by decide)).trans rfl,
    h2.1 (by decide), rfl⟩

/-- Claim C5: for every sample, `predict_proba` is the arithmetic mean of
`vote_proba` across the learner axis, and `predict` returns the class of
`classes_` at the first index attaining the maximum consensus probability
(every entry is at most the chosen one, every strictly earlier entry is
strictly below it). -/
theorem C5_predict_consensus (c : Committee) (n : ℕ) (s : ℕ) (hs : s < n)
    (hcl : c.classes_ ≠ []) :
    (∀ j, j < c.classes_.length →
      ((Committee.predict_proba c n).getD s []).getD j 0 =
        (((Committee.vote_proba c n).getD s []).map (fun r => r.getD j 0)).sum /
          (c.learner_list.length : ℚ)) ∧
    (∃ k, k < c.classes_.length ∧
      (Committee.predict c n).getD s 0 = c.classes_.getD k 0 ∧
      (∀ j, j < c.classes_.length →
        ((Committee.predict_proba c n).getD s []).getD j 0 ≤
          ((Committee.predict_proba c n).getD s []).getD k 0) ∧
      (∀ j, j < k →
        ((Committee.predict_proba c n).getD s []).getD j 0 <
          ((Committee.predict_proba c n).getD s []).getD k 0)) := by
  have hvplen : (Committee.vote_proba c n).length = n := by
    unfold Committee.vote_proba
    split <;> simp
  have hslice : ((Committee.vote_proba c n).getD s []).length = c.learner_list.length := by
    unfold Committee.vote_proba
    split <;> rw [range_map_getD _ n s [] hs] <;> simp
  have hpp : (Committee.predict_proba c n).getD s [] =
      (List.range c.classes_.length).map (fun j =>
        (((Committee.vote_proba c n).getD s []).map (fun r => r.getD j 0)).sum /
          (((Committee.vote_proba c n).getD s []).length : ℚ)) := by
    show ((Committee.vote_proba c n).map _).getD s [] = _
    rw [map_getD_lt _ (Committee.vote_proba c n) s [] [] (by rw [hvplen]; exact hs)]
  have hpplen : ((Committee.predict_proba c n).getD s []).length = c.classes_.length := by
    rw [hpp]
    simp
  have hentry : ∀ j, j < c.classes_.length →
      ((Committee.predict_proba c n).getD s []).getD j 0 =
        (((Committee.vote_proba c n).getD s []).map (fun r => r.getD j 0)).sum /
          (c.learner_list.length : ℚ) := by
    intro j hj
    rw [hpp, range_map_getD _ _ j 0 hj, hslice]
  refine ⟨hentry, ?_⟩
  have hppn : (Committee.predict_proba c n).length = n := by
    unfold Committee.predict_proba
    rw [List.length_map, hvplen]
  have hrowne : (Committee.predict_proba c n).getD s [] ≠ [] := by
    intro h
    rw [h] at hpplen
    exact hcl (List.length_eq_zero.mp hpplen.symm)
  obtain ⟨hk1, hk2, hk3⟩ := npArgmax_spec hrowne
  refine ⟨npArgmax ((Committee.predict_proba c n).getD s []), by rw [← hpplen]; exact hk1,
    ?_, ?_, ?_⟩
  · show ((Committee.predict_proba c n).map
        (fun row => c.classes_.getD (npArgmax row) 0)).getD s 0 = _
    rw [map_getD_lt _ (Committee.predict_proba c n) s 0 [] (by rw [hppn]; exact hs)]
  · intro j hj
    rw [hk2]
    exact le_listMax (getD_mem_of_lt _ j 0 (by rw [hpplen]; exact hj))
  · intro j hj
    rw [hk2]
    exact hk3 j hj

/-- Witness for claim C5 at a concrete committee: the consensus probabilities
of the two members are the arithmetic means [0.25, 0.55, 0.2], and predict
picks class 1, the argmax of the consensus row. -/
theorem C5_predict_consensus_witness :
    ((Committee.predict_proba commAB 1).getD 0 []).getD 0 0 = 1/4 ∧
    ((Committee.predict_proba commAB 1).getD 0 []).getD 1 0 = 11/20 ∧
    (Committee.predict commAB 1).getD 0 0 = 1 := by
  have h := C5_predict_consensus commAB 1 0 (by decide) (by decide)
  have hvp : Committee.vote_proba commAB 1 = [[[3/10, 7/10, 0], [1/5, 2/5, 2/5]]] := rfl
  have e0 : ((Committee.predict_proba commAB 1).getD 0 []).getD 0 0 = 1/4 :=
    (h.1 0 (by decide)).trans (by rw [hvp]; norm_num [commAB])
  have e1 : ((Committee.predict_proba commAB 1).getD 0 []).getD 1 0 = 11/20 :=
    (h.1 1 (by decide)).trans (by rw [hvp]; norm_num [commAB])
  have e2 : ((Committee.predict_proba commAB 1).getD 0 []).getD 2 0 = 1/5 :=
    (h.1 2 (by decide)).trans (by rw [hvp]; norm_num [commAB])
  obtain ⟨k, hk, hval, hmax, _⟩ := h.2
  refine ⟨e0, e1, ?_⟩
  have hk3 : k < 3 := hk
  interval_cases k
  · exfalso
    have hcon := hmax 1 (by decide)
    rw [e0, e1] at hcon
    norm_num at hcon
  · exact hval
  · exfalso
    have hcon := hmax 1 (by decide)
    rw [e2, e1] at hcon
    norm_num at hcon

/-- `npUnique` returns an ascending duplicate-free enumeration of exactly the
values of its input. -/
theorem npUnique_spec (l : List ℤ) :
    (npUnique l).Sorted (· ≤ ·) ∧ (npUnique l).Nodup ∧ ∀ z : ℤ, z ∈ npUnique l ↔ z ∈ l := by
  refine ⟨?_, List.nodup_dedup _, ?_⟩
  · exact List.Pairwise.sublist (List.dedup_sublist _) (List.sorted_insertionSort _ l)
  · intro z
    unfold npUnique
    rw [List.mem_dedup]
    exact (List.perm_insertionSort _ l).mem_iff

/-- Membership in the concatenated member class lists is membership in some
member's classes. -/
theorem mem_classes_foldr : ∀ {ms : List CLearner} {z : ℤ},
    z ∈ ms.foldr (fun m acc => m.classes ++ acc) [] ↔ ∃ m ∈ ms, z ∈ m.classes := by
  intro ms
  induction ms with
  | nil =>
    intro z
    simp
  | cons m ms ih =>
    intro z
    show z ∈ m.classes ++ ms.foldr (fun m acc => m.classes ++ acc) [] ↔ _
    rw [List.mem_append, ih]
    constructor
    · rintro (hz | ⟨m', hm', hz⟩)
      · exact ⟨m, List.mem_cons_self m ms, hz⟩
      · exact ⟨m', List.mem_cons_of_mem m hm', hz⟩
    · rintro ⟨m', hm', hz⟩
      rcases List.mem_cons.mp hm' with rfl | hm''
      · exact Or.inl hz
      · exact Or.inr ⟨m', hm'', hz⟩

/-- `_set_classes` computes a sorted union of the member class labels. -/
theorem set_classes_spec (ms : List CLearner) : IsSortedUnion (_set_classes ms) ms :=
  ⟨(npUnique_spec _).1, (npUnique_spec _).2.1,
    fun z => ((npUnique_spec _).2.2 z).trans mem_classes_foldr⟩

/-- Claim C4: after construction, after a successful `fit` and after a
successful `teach`, the unified `classes_` of a classification Committee is
the sorted duplicate-free union of every member estimator's class labels
(whose cardinality is its length). -/
theorem C4_committee_classes_union (ms : List CLearner) (c : CommitteeState)
    (X : Mat) (y : List ℤ) :
    IsSortedUnion (Committee.construct ms).classes_ (Committee.construct ms).learner_list ∧
    (∀ c', Committee.fit c X y = .ok c' → IsSortedUnion c'.classes_ c'.learner_list) ∧
    (∀ c', Committee.teach c X y = .ok c' → IsSortedUnion c'.classes_ c'.learner_list) := by
  refine ⟨set_classes_spec ms, ?_, ?_⟩
  · intro c' h
    unfold Committee.fit at h
    rcases hm : c.learner_list.mapM (fun m => CLearner.fit m X y) with e | ms'
    · rw [hm] at h
      change Except.error e = Except.ok c' at h
      cases h
    · rw [hm] at h
      change Except.ok (⟨ms', _set_classes ms'⟩ : CommitteeState) = Except.ok c' at h
      injection h with h
      rw [← h]
      exact set_classes_spec ms'
  · intro c' h
    unfold Committee.teach at h
    rcases hm : c.learner_list.mapM (fun m => CLearner._add_training_data m X y) with e | ms1
    · rw [hm] at h
      change Except.error e = Except.ok c' at h
      cases h
    · rw [hm] at h
      change Except.ok (⟨ms1.map CLearner._fit_to_known,
        _set_classes (ms1.map CLearner._fit_to_known)⟩ : CommitteeState) = Except.ok c' at h
      injection h with h
      rw [← h]
      exact set_classes_spec (ms1.map CLearner._fit_to_known)

/-- Witness for claim C4 at a concrete committee: members knowing {0, 1} and
{1, 2} unify to classes [0, 1, 2]; teaching the batch (X = [[5]], y = [2])
refits both members, after which the recomputed classes_ again satisfies the
sorted-union property (both members now know exactly class 2). -/
theorem C4_committee_classes_union_witness :
    (Committee.construct C4_members).classes_ = [0, 1, 2] ∧
    (2 : ℤ) ∈ (Committee.construct C4_members).classes_ ∧
    (Committee.construct C4_members).classes_.Sorted (· ≤ ·) ∧
    C4_teached.classes_ = [2] ∧
    (2 : ℤ) ∈ C4_teached.classes_ := by
  have h := C4_committee_classes_union C4_members (Committee.construct C4_members) [[5]] [2]
  have ht := h.2.2 C4_teached (by decide)
  refine ⟨by decide, ?_, h.1.1, by decide, ?_⟩
  · exact (h.1.2.2 2).mpr ⟨C4_members.getD 1 default, by decide, by decide⟩
  · exact (ht.2.2 2).mpr ⟨C4_teached.learner_list.getD 0 default, by decide, by decide⟩

end ModAL
